import Mathlib

/-!
Shallow embedding of `vllm/v1/sample/rejection_sampler.py`: the rejection
sampling step of speculative decoding.  Token ids are `Int` (the placeholder
sentinel is `-1`), probabilities and temperatures are `ℚ`, device tensors are
Lean lists, and each Triton kernel instance (one per batch row, resp. one per
(request, position) grid cell) is an explicit function on that row's data.
-/

namespace RejectionSampling

/-- Reserved sentinel marking unused cells (`PLACEHOLDER_TOKEN_ID = -1`). -/
def PLACEHOLDER_TOKEN_ID : Int := -1

/-- Sentinel temperature value denoting greedy sampling (`GREEDY_TEMPERATURE = -1`). -/
def GREEDY_TEMPERATURE : ℚ := -1

/-- Per-row mutable state of the two verification kernels: the output row
(`max_spec_len + 1` cells), the `rejected` and `finished` flags and the
`num_generated` counter, exactly as in the Triton kernel bodies. -/
structure KernelState where
  out : List Int
  rejected : Bool
  finished : Bool
  num_generated : Nat
  deriving Repr, DecidableEq

/-- Loop body of `rejection_greedy_sample_kernel` for one position `pos`:
skip when finished, stop at a placeholder draft token, otherwise accept the
draft token when it equals the target arg-max and write it, or write the
target arg-max, mark the row rejected and stop. -/
def greedy_body (draft target_argmax : Nat → Int) (s : KernelState) (pos : Nat) :
    KernelState :=
  if s.finished then s
  else
    let token_id := draft pos
    if token_id = PLACEHOLDER_TOKEN_ID then { s with finished := true }
    else
      let draft_token_id := draft pos
      let target_argmax_id := target_argmax pos
      if draft_token_id = target_argmax_id then
        { s with out := s.out.set pos draft_token_id,
                 num_generated := s.num_generated + 1 }
      else
        { s with out := s.out.set pos target_argmax_id,
                 rejected := true,
                 num_generated := s.num_generated + 1,
                 finished := true }

/-- Loop body of `rejection_random_sample_kernel` for one position `pos`:
skip when finished, stop at a placeholder draft token, otherwise accept the
draft token iff `target_prob / draft_prob ≥ uniform_prob` (with
`draft_prob = 1` in n-gram mode), writing the draft token on acceptance and
the precomputed recovered token (marking rejection and stopping) otherwise. -/
def random_body (draft : Nat → Int) (IS_NGRAM : Bool)
    (draft_probs target_probs : Nat → Int → ℚ)
    (uniform_probs : Nat → ℚ) (recovered_token_ids : Nat → Int)
    (s : KernelState) (pos : Nat) : KernelState :=
  if s.finished then s
  else
    let token_id := draft pos
    if token_id = PLACEHOLDER_TOKEN_ID then { s with finished := true }
    else
      let draft_prob : ℚ := if IS_NGRAM then 1 else draft_probs pos token_id
      let target_prob := target_probs pos token_id
      let uniform_prob := uniform_probs pos
      if target_prob / draft_prob ≥ uniform_prob then
        { s with out := s.out.set pos token_id,
                 num_generated := s.num_generated + 1 }
      else
        { s with out := s.out.set pos (recovered_token_ids pos),
                 rejected := true,
                 num_generated := s.num_generated + 1,
                 finished := true }

/-- Sequential `for pos in range(max_spec_len)` loop of a verification kernel. -/
def kernel_loop (body : KernelState → Nat → KernelState) (max_spec_len : Nat)
    (s : KernelState) : KernelState :=
  (List.range max_spec_len).foldl body s

/-- Initial state of a kernel row: the output row is `max_spec_len + 1`
placeholder cells (the output matrix is filled with the placeholder before the
kernels run), no rejection, not finished, nothing generated. -/
def init_state (max_spec_len : Nat) : KernelState :=
  ⟨List.replicate (max_spec_len + 1) PLACEHOLDER_TOKEN_ID, false, false, 0⟩

/-- One program instance of `rejection_greedy_sample_kernel`: early exit for
non-greedy rows (the pre-filled placeholder row is left untouched), otherwise
run the scan loop and append the bonus token at `num_generated` when the row
was never rejected. -/
def rejection_greedy_sample_row (max_spec_len : Nat) (draft target_argmax : Nat → Int)
    (bonus_token_id : Int) (is_greedy : Bool) : List Int :=
  if !is_greedy then (init_state max_spec_len).out
  else
    let s := kernel_loop (greedy_body draft target_argmax) max_spec_len
      (init_state max_spec_len)
    if !s.rejected then s.out.set s.num_generated bonus_token_id else s.out

/-- One program instance of `rejection_random_sample_kernel`: early exit for
greedy rows, otherwise run the stochastic scan loop and append the bonus token
at `num_generated` when the row was never rejected. -/
def rejection_random_sample_row (max_spec_len : Nat) (draft : Nat → Int)
    (IS_NGRAM : Bool) (draft_probs target_probs : Nat → Int → ℚ)
    (uniform_probs : Nat → ℚ) (recovered_token_ids : Nat → Int)
    (bonus_token_id : Int) (is_greedy : Bool) : List Int :=
  if is_greedy then (init_state max_spec_len).out
  else
    let s := kernel_loop
      (random_body draft IS_NGRAM draft_probs target_probs uniform_probs
        recovered_token_ids) max_spec_len (init_state max_spec_len)
    if !s.rejected then s.out.set s.num_generated bonus_token_id else s.out

/-- Common shape of the two kernel loop bodies: an accept decision per
position together with the token written on rejection.  `greedy_body` and
`random_body` are definitionally instances of it. -/
def verify_body (draft : Nat → Int) (accept : Nat → Bool) (reject_token : Nat → Int)
    (s : KernelState) (pos : Nat) : KernelState :=
  if s.finished then s
  else
    let token_id := draft pos
    if token_id = PLACEHOLDER_TOKEN_ID then { s with finished := true }
    else if accept pos then
      { s with out := s.out.set pos token_id,
               num_generated := s.num_generated + 1 }
    else
      { s with out := s.out.set pos (reject_token pos),
               rejected := true,
               num_generated := s.num_generated + 1,
               finished := true }

theorem greedy_body_eq (draft target_argmax : Nat → Int) :
    greedy_body draft target_argmax =
      verify_body draft (fun pos => decide (draft pos = target_argmax pos))
        target_argmax := by
  funext s pos
  by_cases hf : s.finished <;>
    by_cases hp : draft pos = PLACEHOLDER_TOKEN_ID <;>
      by_cases ha : draft pos = target_argmax pos <;>
        simp [greedy_body, verify_body, hf, hp, ha]

theorem random_body_eq (draft : Nat → Int) (IS_NGRAM : Bool)
    (draft_probs target_probs : Nat → Int → ℚ)
    (uniform_probs : Nat → ℚ) (recovered_token_ids : Nat → Int) :
    random_body draft IS_NGRAM draft_probs target_probs uniform_probs
        recovered_token_ids =
      verify_body draft
        (fun pos => decide (target_probs pos (draft pos) /
          (if IS_NGRAM then 1 else draft_probs pos (draft pos)) ≥
            uniform_probs pos))
        recovered_token_ids := by
  funext s pos
  by_cases hf : s.finished <;>
    by_cases hp : draft pos = PLACEHOLDER_TOKEN_ID <;>
      by_cases ha : target_probs pos (draft pos) /
          (if IS_NGRAM then 1 else draft_probs pos (draft pos)) ≥
            uniform_probs pos <;>
        simp [random_body, verify_body, hf, hp, ha]

/-- The scan loop over positions `start, start+1, …, start+n-1`. -/
def verify_loop (draft : Nat → Int) (accept : Nat → Bool) (reject_token : Nat → Int)
    (start n : Nat) (s : KernelState) : KernelState :=
  (List.range' start n).foldl (verify_body draft accept reject_token) s

theorem kernel_loop_eq_verify_loop (draft : Nat → Int) (accept : Nat → Bool)
    (reject_token : Nat → Int) (max_spec_len : Nat) (s : KernelState) :
    kernel_loop (verify_body draft accept reject_token) max_spec_len s =
      verify_loop draft accept reject_token 0 max_spec_len s := by
  simp [kernel_loop, verify_loop, List.range_eq_range']

theorem getD_set (l : List α) (i j : Nat) (v dflt : α) :
    (l.set i v).getD j dflt =
      if i = j ∧ i < l.length then v else l.getD j dflt := by
  simp only [List.getD_eq_getElem?_getD, List.getElem?_set]
  by_cases h : i = j
  · subst h
    by_cases h2 : i < l.length
    · simp [h2]
    · simp [h2, List.getElem?_eq_none (Nat.le_of_not_lt h2)]
  · simp [h]

theorem verify_body_finished (draft : Nat → Int) (accept : Nat → Bool)
    (reject_token : Nat → Int) (s : KernelState) (pos : Nat)
    (h : s.finished = true) :
    verify_body draft accept reject_token s pos = s := by
  simp [verify_body, h]

theorem verify_loop_finished (draft : Nat → Int) (accept : Nat → Bool)
    (reject_token : Nat → Int) (start n : Nat) (s : KernelState)
    (h : s.finished = true) :
    verify_loop draft accept reject_token start n s = s := by
  induction n generalizing start with
  | zero => simp [verify_loop]
  | succ n ih =>
    rw [verify_loop, List.range'_succ, List.foldl_cons,
      verify_body_finished _ _ _ _ _ h]
    exact ih (start + 1)

theorem getD_replicate (n j : Nat) (x dflt : α) :
    (List.replicate n x).getD j dflt = if j < n then x else dflt := by
  simp only [List.getD_eq_getElem?_getD, List.getElem?_replicate]
  by_cases h : j < n <;> simp [h]

theorem verify_loop_append (draft : Nat → Int) (accept : Nat → Bool)
    (reject_token : Nat → Int) (start m k : Nat) (s : KernelState) :
    verify_loop draft accept reject_token start (m + k) s =
      verify_loop draft accept reject_token (start + m) k
        (verify_loop draft accept reject_token start m s) := by
  rw [verify_loop, verify_loop, verify_loop, Nat.add_comm m k,
    ← List.range'_append_1 start m k, List.foldl_append]

theorem verify_body_out_untouched (draft : Nat → Int) (accept : Nat → Bool)
    (reject_token : Nat → Int) (s : KernelState) (pos j : Nat) (dflt : Int)
    (hj : j ≠ pos) :
    (verify_body draft accept reject_token s pos).out.getD j dflt =
      s.out.getD j dflt := by
  unfold verify_body
  by_cases hf : s.finished
  · simp [hf]
  · by_cases hp : draft pos = PLACEHOLDER_TOKEN_ID
    · simp [hf, hp]
    · by_cases ha : accept pos
      · simp [hf, hp, ha, getD_set, Ne.symm hj]
      · simp [hf, hp, ha, getD_set, Ne.symm hj]

theorem verify_loop_out_lower (draft : Nat → Int) (accept : Nat → Bool)
    (reject_token : Nat → Int) (start n : Nat) (s : KernelState) (j : Nat)
    (dflt : Int) (hj : j < start) :
    (verify_loop draft accept reject_token start n s).out.getD j dflt =
      s.out.getD j dflt := by
  induction n generalizing start s with
  | zero => rfl
  | succ n ih =>
    rw [verify_loop, List.range'_succ, List.foldl_cons]
    rw [show List.foldl (verify_body draft accept reject_token)
        (verify_body draft accept reject_token s start) (List.range' (start + 1) n) =
        verify_loop draft accept reject_token (start + 1) n
          (verify_body draft accept reject_token s start) from rfl]
    rw [ih (start + 1) _ (by omega)]
    exact verify_body_out_untouched _ _ _ _ _ _ _ (by omega)

theorem verify_body_ng_ge (draft : Nat → Int) (accept : Nat → Bool)
    (reject_token : Nat → Int) (s : KernelState) (pos : Nat) :
    s.num_generated ≤
      (verify_body draft accept reject_token s pos).num_generated := by
  unfold verify_body
  by_cases hf : s.finished
  · simp [hf]
  · by_cases hp : draft pos = PLACEHOLDER_TOKEN_ID
    · simp [hf, hp]
    · by_cases ha : accept pos <;> simp [hf, hp, ha]

theorem verify_loop_ng_ge (draft : Nat → Int) (accept : Nat → Bool)
    (reject_token : Nat → Int) (start n : Nat) (s : KernelState) :
    s.num_generated ≤
      (verify_loop draft accept reject_token start n s).num_generated := by
  induction n generalizing start s with
  | zero => exact le_refl _
  | succ n ih =>
    rw [verify_loop, List.range'_succ, List.foldl_cons]
    exact le_trans (verify_body_ng_ge _ _ _ _ _) (ih (start + 1) _)

theorem verify_loop_accept (draft : Nat → Int) (accept : Nat → Bool)
    (reject_token : Nat → Int) (start n : Nat) (s : KernelState)
    (hf : s.finished = false)
    (hacc : ∀ i, start ≤ i → i < start + n →
      draft i ≠ PLACEHOLDER_TOKEN_ID ∧ accept i = true) :
    (verify_loop draft accept reject_token start n s).finished = false ∧
    (verify_loop draft accept reject_token start n s).rejected = s.rejected ∧
    (verify_loop draft accept reject_token start n s).num_generated
      = s.num_generated + n ∧
    (verify_loop draft accept reject_token start n s).out.length
      = s.out.length ∧
    ∀ j dflt, (verify_loop draft accept reject_token start n s).out.getD j dflt =
      if start ≤ j ∧ j < start + n ∧ j < s.out.length then draft j
      else s.out.getD j dflt := by
  induction n generalizing start s with
  | zero =>
    refine ⟨hf, rfl, rfl, rfl, ?_⟩
    intro j dflt
    rw [if_neg (show ¬(start ≤ j ∧ j < start + 0 ∧ j < s.out.length) by omega)]
    rfl
  | succ n ih =>
    have hd0 := (hacc start (le_refl _) (by omega)).1
    have ha0 := (hacc start (le_refl _) (by omega)).2
    have hstep : verify_loop draft accept reject_token start (n + 1) s =
        verify_loop draft accept reject_token (start + 1) n
          { s with out := s.out.set start (draft start),
                   num_generated := s.num_generated + 1 } := by
      rw [verify_loop, List.range'_succ, List.foldl_cons]
      have hb : verify_body draft accept reject_token s start =
          { s with out := s.out.set start (draft start),
                   num_generated := s.num_generated + 1 } := by
        simp [verify_body, hf, hd0, ha0]
      rw [hb]
      rfl
    obtain ⟨h1, h2, h3, h4, h5⟩ := ih (start + 1)
      { s with out := s.out.set start (draft start),
               num_generated := s.num_generated + 1 }
      hf (fun i hi1 hi2 => hacc i (by omega) (by omega))
    rw [hstep]
    refine ⟨h1, h2, ?_, ?_, ?_⟩
    · rw [h3]
      show s.num_generated + 1 + n = s.num_generated + (n + 1)
      omega
    · rw [h4]
      show (s.out.set start (draft start)).length = s.out.length
      exact List.length_set s.out start (draft start)
    intro j dflt
    rw [h5 j dflt]
    simp only [List.length_set]
    rw [getD_set]
    by_cases hj : j = start
    · subst hj
      by_cases hl : j < s.out.length
      · have hc1 : ¬(j + 1 ≤ j ∧ j < j + 1 + n ∧ j < s.out.length) := by omega
        have hc2 : j ≤ j ∧ j < j + (n + 1) ∧ j < s.out.length := by omega
        simp [hc1, hc2, hl]
      · have hc1 : ¬(j + 1 ≤ j ∧ j < j + 1 + n ∧ j < s.out.length) := by omega
        have hc2 : ¬(j ≤ j ∧ j < j + (n + 1) ∧ j < s.out.length) := by omega
        simp [hc1, hc2, hl]
    · by_cases hc : start + 1 ≤ j ∧ j < start + 1 + n ∧ j < s.out.length
      · have hc2 : start ≤ j ∧ j < start + (n + 1) ∧ j < s.out.length := by
          omega
        simp [hc, hc2]
      · have hc2 : ¬(start ≤ j ∧ j < start + (n + 1) ∧ j < s.out.length) := by
          omega
        have hc3 : ¬(start = j ∧ start < s.out.length) := by
          intro h
          exact hj h.1.symm
        simp [hc, hc2, hc3]

/-- Per-row result of either kernel once its accept decision and rejection
token are abstracted: run the scan loop from the placeholder-filled row, then
append the bonus token when the row was never rejected. -/
def verify_row (max_spec_len : Nat) (draft : Nat → Int) (accept : Nat → Bool)
    (reject_token : Nat → Int) (bonus_token_id : Int) : List Int :=
  let s := verify_loop draft accept reject_token 0 max_spec_len
    (init_state max_spec_len)
  if !s.rejected then s.out.set s.num_generated bonus_token_id else s.out

theorem greedy_row_eq (msl : Nat) (draft target_argmax : Nat → Int)
    (bonus : Int) :
    rejection_greedy_sample_row msl draft target_argmax bonus true =
      verify_row msl draft (fun pos => decide (draft pos = target_argmax pos))
        target_argmax bonus := by
  rw [rejection_greedy_sample_row, greedy_body_eq, kernel_loop_eq_verify_loop]
  rfl

theorem random_row_eq (msl : Nat) (draft : Nat → Int) (IS_NGRAM : Bool)
    (draft_probs target_probs : Nat → Int → ℚ) (uniform_probs : Nat → ℚ)
    (recovered_token_ids : Nat → Int) (bonus : Int) :
    rejection_random_sample_row msl draft IS_NGRAM draft_probs target_probs
        uniform_probs recovered_token_ids bonus false =
      verify_row msl draft
        (fun pos => decide (target_probs pos (draft pos) /
          (if IS_NGRAM then 1 else draft_probs pos (draft pos)) ≥
            uniform_probs pos))
        recovered_token_ids bonus := by
  rw [rejection_random_sample_row, random_body_eq, kernel_loop_eq_verify_loop]
  rfl

theorem init_out_length (msl : Nat) :
    (init_state msl).out.length = msl + 1 := by
  simp [init_state]

theorem init_out_getD (msl j : Nat) :
    (init_state msl).out.getD j PLACEHOLDER_TOKEN_ID = PLACEHOLDER_TOKEN_ID := by
  rw [init_state, getD_replicate]
  split_ifs <;> rfl

/-- Characterization of a row whose scan hits its first rejection at `p`:
before `p` the accepted draft tokens, at `p` the rejection token, placeholders
everywhere after (no bonus token is appended). -/
theorem verify_row_reject_char (msl p : Nat) (draft : Nat → Int)
    (accept : Nat → Bool) (reject_token : Nat → Int) (bonus : Int)
    (hp : p < msl)
    (hlive : ∀ i, i < p → draft i ≠ PLACEHOLDER_TOKEN_ID ∧ accept i = true)
    (hd : draft p ≠ PLACEHOLDER_TOKEN_ID) (ha : accept p = false) :
    ∀ j, (verify_row msl draft accept reject_token bonus).getD j
        PLACEHOLDER_TOKEN_ID =
      if j < p then draft j else if j = p then reject_token p
      else PLACEHOLDER_TOKEN_ID := by
  intro j
  have hsplit : verify_loop draft accept reject_token 0 msl (init_state msl) =
      verify_loop draft accept reject_token p (msl - p)
        (verify_loop draft accept reject_token 0 p (init_state msl)) := by
    have h := verify_loop_append draft accept reject_token 0 p (msl - p)
      (init_state msl)
    rw [show p + (msl - p) = msl by omega] at h
    simpa using h
  obtain ⟨h1, h2, h3, h4, h5⟩ := verify_loop_accept draft accept reject_token
    0 p (init_state msl) rfl (fun i hi1 hi2 => hlive i (by omega))
  set s1 := verify_loop draft accept reject_token 0 p (init_state msl) with hs1
  have hstep : verify_loop draft accept reject_token p (msl - p) s1 =
      { s1 with out := s1.out.set p (reject_token p), rejected := true,
                finished := true, num_generated := s1.num_generated + 1 } := by
    obtain ⟨k, hk⟩ : ∃ k, msl - p = k + 1 := ⟨msl - p - 1, by omega⟩
    rw [hk, verify_loop, List.range'_succ, List.foldl_cons]
    have hb : verify_body draft accept reject_token s1 p =
        { s1 with out := s1.out.set p (reject_token p), rejected := true,
                  finished := true, num_generated := s1.num_generated + 1 } := by
      simp [verify_body, h1, hd, ha]
    rw [hb]
    exact verify_loop_finished _ _ _ _ _ _ rfl
  have hlen : s1.out.length = msl + 1 := by rw [h4, init_out_length]
  rw [verify_row, hsplit, hstep]
  show ((s1.out.set p (reject_token p)).getD j PLACEHOLDER_TOKEN_ID) = _
  rw [getD_set]
  by_cases hj : p = j
  · subst hj
    rw [if_pos ⟨rfl, by omega⟩, if_neg (by omega), if_pos rfl]
  · rw [if_neg (fun h => hj h.1)]
    rw [h5 j PLACEHOLDER_TOKEN_ID, init_out_getD, init_out_length]
    by_cases hjp : j < p
    · rw [if_pos ⟨by omega, by omega, by omega⟩, if_pos hjp]
    · rw [if_neg (by omega), if_neg hjp, if_neg (fun h => hj h.symm)]

/-- Characterization of a fully accepted row of actual draft length `n`
(the scan stops at position `n` because the draft is exhausted, either by the
placeholder or by the end of the row): the `n` accepted draft tokens, then the
bonus token, then placeholders. -/
theorem verify_row_accept_char (msl n : Nat) (draft : Nat → Int)
    (accept : Nat → Bool) (reject_token : Nat → Int) (bonus : Int)
    (hn : n ≤ msl)
    (hlive : ∀ i, i < n → draft i ≠ PLACEHOLDER_TOKEN_ID ∧ accept i = true)
    (hstop : n < msl → draft n = PLACEHOLDER_TOKEN_ID) :
    ∀ j, (verify_row msl draft accept reject_token bonus).getD j
        PLACEHOLDER_TOKEN_ID =
      if j < n then draft j else if j = n then bonus
      else PLACEHOLDER_TOKEN_ID := by
  intro j
  have hsplit : verify_loop draft accept reject_token 0 msl (init_state msl) =
      verify_loop draft accept reject_token n (msl - n)
        (verify_loop draft accept reject_token 0 n (init_state msl)) := by
    have h := verify_loop_append draft accept reject_token 0 n (msl - n)
      (init_state msl)
    rw [show n + (msl - n) = msl by omega] at h
    simpa using h
  obtain ⟨h1, h2, h3, h4, h5⟩ := verify_loop_accept draft accept reject_token
    0 n (init_state msl) rfl (fun i hi1 hi2 => hlive i (by omega))
  set s1 := verify_loop draft accept reject_token 0 n (init_state msl) with hs1
  have hfinal :
      (verify_loop draft accept reject_token n (msl - n) s1).out = s1.out ∧
      (verify_loop draft accept reject_token n (msl - n) s1).rejected
        = s1.rejected ∧
      (verify_loop draft accept reject_token n (msl - n) s1).num_generated
        = s1.num_generated := by
    rcases Nat.lt_or_ge n msl with hlt | hge
    · obtain ⟨k, hk⟩ : ∃ k, msl - n = k + 1 := ⟨msl - n - 1, by omega⟩
      rw [hk, verify_loop, List.range'_succ, List.foldl_cons]
      have hb : verify_body draft accept reject_token s1 n =
          { s1 with finished := true } := by
        simp [verify_body, h1, hstop hlt]
      rw [hb]
      rw [show List.foldl (verify_body draft accept reject_token)
          { s1 with finished := true } (List.range' (n + 1) k) =
          verify_loop draft accept reject_token (n + 1) k
            { s1 with finished := true } from rfl]
      rw [verify_loop_finished _ _ _ _ _ _ rfl]
      exact ⟨rfl, rfl, rfl⟩
    · have h0 : msl - n = 0 := by omega
      rw [h0]
      exact ⟨rfl, rfl, rfl⟩
  have hlen : s1.out.length = msl + 1 := by rw [h4, init_out_length]
  have hng : s1.num_generated = n := by
    rw [h3]
    show 0 + n = n
    omega
  have hrej : (verify_loop draft accept reject_token n (msl - n) s1).rejected
      = false := by
    rw [hfinal.2.1, h2]
    rfl
  rw [verify_row, hsplit, hrej]
  show ((verify_loop draft accept reject_token n (msl - n) s1).out.set
      (verify_loop draft accept reject_token n (msl - n) s1).num_generated
      bonus).getD j PLACEHOLDER_TOKEN_ID = _
  rw [hfinal.1, hfinal.2.2, hng, getD_set]
  by_cases hj : n = j
  · subst hj
    rw [if_pos ⟨rfl, by omega⟩, if_neg (by omega), if_pos rfl]
  · rw [if_neg (fun h => hj h.1)]
    rw [h5 j PLACEHOLDER_TOKEN_ID, init_out_getD, init_out_length]
    by_cases hjn : j < n
    · rw [if_pos ⟨by omega, by omega, by omega⟩, if_pos hjn]
    · rw [if_neg (by omega), if_neg hjn, if_neg (fun h => hj h.symm)]

/-- An accepted position keeps the draft token in the final row, whatever the
scan does afterwards: later writes (including the bonus append) only touch
later positions. -/
theorem verify_row_accept_pos (msl p : Nat) (draft : Nat → Int)
    (accept : Nat → Bool) (reject_token : Nat → Int) (bonus : Int)
    (hp : p < msl)
    (hlive : ∀ i, i ≤ p → draft i ≠ PLACEHOLDER_TOKEN_ID ∧ accept i = true) :
    (verify_row msl draft accept reject_token bonus).getD p
      PLACEHOLDER_TOKEN_ID = draft p := by
  have hsplit : verify_loop draft accept reject_token 0 msl (init_state msl) =
      verify_loop draft accept reject_token (p + 1) (msl - (p + 1))
        (verify_loop draft accept reject_token 0 (p + 1) (init_state msl)) := by
    have h := verify_loop_append draft accept reject_token 0 (p + 1)
      (msl - (p + 1)) (init_state msl)
    rw [show p + 1 + (msl - (p + 1)) = msl by omega] at h
    simpa using h
  obtain ⟨h1, h2, h3, h4, h5⟩ := verify_loop_accept draft accept reject_token
    0 (p + 1) (init_state msl) rfl (fun i hi1 hi2 => hlive i (by omega))
  set s1 := verify_loop draft accept reject_token 0 (p + 1) (init_state msl)
    with hs1
  set s2 := verify_loop draft accept reject_token (p + 1) (msl - (p + 1)) s1
    with hs2
  have hng1 : s1.num_generated = p + 1 := by
    rw [h3]
    show 0 + (p + 1) = p + 1
    omega
  have hng2 : p + 1 ≤ s2.num_generated := by
    rw [hs2]
    calc p + 1 = s1.num_generated := hng1.symm
    _ ≤ _ := verify_loop_ng_ge _ _ _ _ _ _
  have hout2 : s2.out.getD p PLACEHOLDER_TOKEN_ID = draft p := by
    rw [hs2, verify_loop_out_lower _ _ _ _ _ _ _ _ (by omega),
      h5 p PLACEHOLDER_TOKEN_ID,
      if_pos ⟨by omega, by omega, by rw [init_out_length]; omega⟩]
  rw [verify_row, hsplit]
  show (if !s2.rejected then s2.out.set s2.num_generated bonus
    else s2.out).getD p PLACEHOLDER_TOKEN_ID = draft p
  cases hr : s2.rejected with
  | true =>
    simp only [hr, Bool.not_true, Bool.false_eq_true, if_false]
    exact hout2
  | false =>
    simp only [hr, Bool.not_false, if_true]
    rw [getD_set, if_neg (fun h => by omega)]
    exact hout2

/-- C1: for a greedy row whose first mismatch (with no earlier placeholder)
is at position `p`, the output holds the draft tokens at all positions before
`p`, the target arg-max token (which differs from the draft token) at `p`,
and placeholders at every later position. -/
theorem C1_greedy_first_mismatch (msl p : Nat) (draft target_argmax : Nat → Int)
    (bonus : Int)
    (hp : p < msl)
    (hnoph : ∀ i, i ≤ p → draft i ≠ PLACEHOLDER_TOKEN_ID)
    (hmatch : ∀ i, i < p → draft i = target_argmax i)
    (hmis : draft p ≠ target_argmax p) :
    (∀ i, i < p →
      (rejection_greedy_sample_row msl draft target_argmax bonus true).getD i
        PLACEHOLDER_TOKEN_ID = draft i) ∧
    (rejection_greedy_sample_row msl draft target_argmax bonus true).getD p
        PLACEHOLDER_TOKEN_ID = target_argmax p ∧
    (rejection_greedy_sample_row msl draft target_argmax bonus true).getD p
        PLACEHOLDER_TOKEN_ID ≠ draft p ∧
    (∀ j, p < j →
      (rejection_greedy_sample_row msl draft target_argmax bonus true).getD j
        PLACEHOLDER_TOKEN_ID = PLACEHOLDER_TOKEN_ID) := by
  rw [greedy_row_eq]
  have hchar := verify_row_reject_char msl p draft
    (fun pos => decide (draft pos = target_argmax pos)) target_argmax bonus hp
    (fun i hi => ⟨hnoph i (by omega), by simp [hmatch i hi]⟩)
    (hnoph p (le_refl p)) (by simp [hmis])
  refine ⟨?_, ?_, ?_, ?_⟩
  · intro i hi
    rw [hchar i, if_pos hi]
  · rw [hchar p, if_neg (by omega), if_pos rfl]
  · rw [hchar p, if_neg (by omega), if_pos rfl]
    exact fun h => hmis h.symm
  · intro j hj
    rw [hchar j, if_neg (by omega), if_neg (by omega)]

/-- Witness for C1: the spec scenario — draft `[5, 7]`, target arg-max
`[5, 9]`, bonus `42`; the mismatch is at position 1 and the output there is
the target arg-max token `9`. -/
theorem C1_greedy_first_mismatch_witness :
    1 < 2 ∧
    (rejection_greedy_sample_row 2 (fun q => if q = 0 then 5 else 7)
      (fun q => if q = 0 then 5 else 9) 42 true).getD 1 PLACEHOLDER_TOKEN_ID =
      (fun q => if q = 0 then (5 : Int) else 9) 1 :=
  ⟨by decide,
    (C1_greedy_first_mismatch 2 1 (fun q => if q = 0 then 5 else 7)
      (fun q => if q = 0 then 5 else 9) 42 (by decide)
      (fun i hi => by
        show (if i = 0 then (5 : Int) else 7) ≠ PLACEHOLDER_TOKEN_ID
        split_ifs <;> decide)
      (fun i hi => by
        have h0 : i = 0 := by omega
        subst h0
        decide)
      (by decide)).2.1⟩

/-- C2: for a random row with a live scan up to position `p` (no placeholder,
all earlier positions accepted), the verifier accepts at `p` iff
`target_prob / draft_prob ≥ uniform_draw` (with `draft_prob = 1` in n-gram
mode): earlier accepted positions and an accepted `p` hold the draft token,
while a rejected `p` holds the recovered token and ends the row. -/
theorem C2_random_accept_criterion (msl p : Nat) (draft : Nat → Int)
    (IS_NGRAM : Bool) (draft_probs target_probs : Nat → Int → ℚ)
    (uniform_probs : Nat → ℚ) (recovered_token_ids : Nat → Int) (bonus : Int)
    (hp : p < msl)
    (hnoph : ∀ i, i ≤ p → draft i ≠ PLACEHOLDER_TOKEN_ID)
    (hacc : ∀ i, i < p →
      target_probs i (draft i) /
        (if IS_NGRAM then 1 else draft_probs i (draft i)) ≥ uniform_probs i) :
    (∀ i, i < p →
      (rejection_random_sample_row msl draft IS_NGRAM draft_probs target_probs
        uniform_probs recovered_token_ids bonus false).getD i
        PLACEHOLDER_TOKEN_ID = draft i) ∧
    (target_probs p (draft p) /
        (if IS_NGRAM then 1 else draft_probs p (draft p)) ≥ uniform_probs p →
      (rejection_random_sample_row msl draft IS_NGRAM draft_probs target_probs
        uniform_probs recovered_token_ids bonus false).getD p
        PLACEHOLDER_TOKEN_ID = draft p) ∧
    (¬ target_probs p (draft p) /
        (if IS_NGRAM then 1 else draft_probs p (draft p)) ≥ uniform_probs p →
      (rejection_random_sample_row msl draft IS_NGRAM draft_probs target_probs
        uniform_probs recovered_token_ids bonus false).getD p
        PLACEHOLDER_TOKEN_ID = recovered_token_ids p ∧
      ∀ j, p < j →
        (rejection_random_sample_row msl draft IS_NGRAM draft_probs
          target_probs uniform_probs recovered_token_ids bonus false).getD j
          PLACEHOLDER_TOKEN_ID = PLACEHOLDER_TOKEN_ID) := by
  rw [random_row_eq]
  refine ⟨?_, ?_, ?_⟩
  · intro i hi
    exact verify_row_accept_pos msl i draft _ recovered_token_ids bonus
      (by omega)
      (fun k hk => ⟨hnoph k (by omega), by
        simp only [decide_eq_true_eq]
        exact hacc k (by omega)⟩)
  · intro h
    exact verify_row_accept_pos msl p draft _ recovered_token_ids bonus hp
      (fun k hk => ⟨hnoph k hk, by
        simp only [decide_eq_true_eq]
        rcases Nat.lt_or_ge k p with hk2 | hk2
        · exact hacc k hk2
        · have : k = p := by omega
          subst this
          exact h⟩)
  · intro h
    have hchar := verify_row_reject_char msl p draft
      (fun pos => decide (target_probs pos (draft pos) /
        (if IS_NGRAM then 1 else draft_probs pos (draft pos)) ≥
          uniform_probs pos))
      recovered_token_ids bonus hp
      (fun i hi => ⟨hnoph i (by omega), by
        simp only [decide_eq_true_eq]
        exact hacc i hi⟩)
      (hnoph p (le_refl p)) (by simp only [decide_eq_false_iff_not]; exact h)
    refine ⟨?_, ?_⟩
    · rw [hchar p, if_neg (by omega), if_pos rfl]
    · intro j hj
      rw [hchar j, if_neg (by omega), if_neg (by omega)]

/-- Witness for C2: n-gram mode, draft `[5, 7]`, target probability 1 at
position 0 and 0 at position 1, uniform draws 1: position 0 is accepted
(1/1 ≥ 1), position 1 is rejected (0/1 < 1) and holds the recovered token 33. -/
theorem C2_random_accept_criterion_witness :
    1 < 2 ∧
    (rejection_random_sample_row 2 (fun q => if q = 0 then 5 else 7) true
      (fun _ _ => 1) (fun pos _ => if pos = 0 then 1 else 0) (fun _ => 1)
      (fun _ => 33) 42 false).getD 1 PLACEHOLDER_TOKEN_ID = 33 :=
  ⟨by decide,
    ((C2_random_accept_criterion 2 1 (fun q => if q = 0 then 5 else 7) true
      (fun _ _ => 1) (fun pos _ => if pos = 0 then 1 else 0) (fun _ => 1)
      (fun _ => 33) 42 (by decide)
      (fun i hi => by
        show (if i = 0 then (5 : Int) else 7) ≠ PLACEHOLDER_TOKEN_ID
        split_ifs <;> decide)
      (fun i hi => by
        have h0 : i = 0 := by omega
        subst h0
        simp)).2.2 (by simp)).1⟩

/-- One row of `RejectionSampler.parse_output`: collect tokens left to right,
stopping at the first placeholder. -/
def parse_output_row (row : List Int) : List Int :=
  row.takeWhile (fun token_id => token_id ≠ PLACEHOLDER_TOKEN_ID)

/-- `RejectionSampler.parse_output`: extract every row of the output matrix. -/
def parse_output (output_token_ids : List (List Int)) : List (List Int) :=
  output_token_ids.map parse_output_row

theorem verify_body_out_length (draft : Nat → Int) (accept : Nat → Bool)
    (reject_token : Nat → Int) (s : KernelState) (pos : Nat) :
    (verify_body draft accept reject_token s pos).out.length
      = s.out.length := by
  unfold verify_body
  by_cases hf : s.finished
  · simp [hf]
  · by_cases hp : draft pos = PLACEHOLDER_TOKEN_ID
    · simp [hf, hp]
    · by_cases ha : accept pos <;> simp [hf, hp, ha]

theorem verify_loop_out_length (draft : Nat → Int) (accept : Nat → Bool)
    (reject_token : Nat → Int) (start n : Nat) (s : KernelState) :
    (verify_loop draft accept reject_token start n s).out.length
      = s.out.length := by
  induction n generalizing start s with
  | zero => rfl
  | succ n ih =>
    rw [verify_loop, List.range'_succ, List.foldl_cons]
    rw [show List.foldl (verify_body draft accept reject_token)
        (verify_body draft accept reject_token s start) (List.range' (start + 1) n) =
        verify_loop draft accept reject_token (start + 1) n
          (verify_body draft accept reject_token s start) from rfl]
    rw [ih (start + 1), verify_body_out_length]

theorem verify_row_length (msl : Nat) (draft : Nat → Int) (accept : Nat → Bool)
    (reject_token : Nat → Int) (bonus : Int) :
    (verify_row msl draft accept reject_token bonus).length = msl + 1 := by
  rw [verify_row]
  cases hr : (verify_loop draft accept reject_token 0 msl
      (init_state msl)).rejected
  · show ((verify_loop draft accept reject_token 0 msl
      (init_state msl)).out.set _ bonus).length = msl + 1
    rw [List.length_set, verify_loop_out_length, init_out_length]
  · show (verify_loop draft accept reject_token 0 msl
      (init_state msl)).out.length = msl + 1
    rw [verify_loop_out_length, init_out_length]

/-- A row whose `getD` profile is `g` on positions below `stop` (with no
placeholder among them) and placeholder from `stop` on extracts to the map of
`g` over `range stop`. -/
theorem parse_row_of_char (l : List Int) (g : Nat → Int) (stop : Nat)
    (hchar : ∀ j, l.getD j PLACEHOLDER_TOKEN_ID =
      if j < stop then g j else PLACEHOLDER_TOKEN_ID)
    (hg : ∀ j, j < stop → g j ≠ PLACEHOLDER_TOKEN_ID)
    (hstop : stop ≤ l.length) :
    parse_output_row l = (List.range stop).map g := by
  induction l generalizing g stop with
  | nil =>
    have h0 : stop = 0 := by
      simp only [List.length_nil] at hstop
      omega
    subst h0
    rfl
  | cons x xs ih =>
    cases stop with
    | zero =>
      have hx : x = PLACEHOLDER_TOKEN_ID := by
        have h := hchar 0
        simpa using h
      simp [parse_output_row, hx]
    | succ k =>
      have hx : x = g 0 := by
        have h := hchar 0
        simpa using h
      have hx_ne : x ≠ PLACEHOLDER_TOKEN_ID := by
        rw [hx]
        exact hg 0 (by omega)
      have hrec : parse_output_row xs = (List.range k).map (fun j => g (j + 1)) := by
        refine ih (fun j => g (j + 1)) k (fun j => ?_) (fun j hj => hg (j + 1) (by omega))
          (by simp only [List.length_cons] at hstop; omega)
        have h := hchar (j + 1)
        simp only [List.getD_cons_succ] at h
        rw [h]
        by_cases hj : j < k
        · rw [if_pos (by omega), if_pos hj]
        · rw [if_neg (by omega), if_neg hj]
      rw [parse_output_row, List.takeWhile_cons, if_pos (by simpa using hx_ne)]
      rw [show xs.takeWhile (fun token_id => token_id ≠ PLACEHOLDER_TOKEN_ID)
        = parse_output_row xs from rfl, hrec]
      rw [List.range_succ_eq_map]
      simp [hx, List.map_map, Function.comp]

/-- Extraction of a fully accepted `verify_row`: the draft tokens followed by
the bonus token. -/
theorem parse_verify_row_accept (msl n : Nat) (draft : Nat → Int)
    (accept : Nat → Bool) (reject_token : Nat → Int) (bonus : Int)
    (hn : n ≤ msl)
    (hlive : ∀ i, i < n → draft i ≠ PLACEHOLDER_TOKEN_ID ∧ accept i = true)
    (hstop : n < msl → draft n = PLACEHOLDER_TOKEN_ID)
    (hbonus : bonus ≠ PLACEHOLDER_TOKEN_ID) :
    parse_output_row (verify_row msl draft accept reject_token bonus) =
      (List.range n).map draft ++ [bonus] := by
  have hchar := verify_row_accept_char msl n draft accept reject_token bonus
    hn hlive hstop
  have hparse := parse_row_of_char
    (verify_row msl draft accept reject_token bonus)
    (fun j => if j < n then draft j else bonus) (n + 1)
    (fun j => by
      rw [hchar j]
      show (if j < n then draft j else if j = n then bonus
          else PLACEHOLDER_TOKEN_ID) =
        if j < n + 1 then (if j < n then draft j else bonus)
          else PLACEHOLDER_TOKEN_ID
      by_cases hj : j < n
      · rw [if_pos hj, if_pos (by omega), if_pos hj]
      · by_cases hj2 : j = n
        · subst hj2
          rw [if_neg hj, if_pos rfl, if_pos (by omega), if_neg hj]
        · rw [if_neg hj, if_neg hj2, if_neg (by omega)])
    (fun j hj => by
      show (if j < n then draft j else bonus) ≠ PLACEHOLDER_TOKEN_ID
      by_cases hjn : j < n
      · rw [if_pos hjn]
        exact (hlive j hjn).1
      · rw [if_neg hjn]
        exact hbonus)
    (by rw [verify_row_length]; omega)
  rw [hparse, List.range_succ, List.map_append]
  congr 1
  · exact List.map_congr_left (fun j hj => by
      show (if j < n then draft j else bonus) = draft j
      rw [if_pos (List.mem_range.mp hj)])
  · simp

/-- C3: a row (greedy or random) with no rejection — all `n` draft tokens of
the request are accepted — extracts to exactly the draft tokens followed by
the bonus token: its extracted length is `n + 1`, its last element is the
bonus token, and the bonus token sits at index `n` (index 0 when `n = 0`). -/
theorem C3_no_rejection (msl n : Nat) (draft target_argmax : Nat → Int)
    (IS_NGRAM : Bool) (draft_probs target_probs : Nat → Int → ℚ)
    (uniform_probs : Nat → ℚ) (recovered_token_ids : Nat → Int) (bonus : Int)
    (hn : n ≤ msl)
    (hreal : ∀ i, i < n → draft i ≠ PLACEHOLDER_TOKEN_ID)
    (hpad : n < msl → draft n = PLACEHOLDER_TOKEN_ID)
    (hbonus : bonus ≠ PLACEHOLDER_TOKEN_ID)
    (hgmatch : ∀ i, i < n → draft i = target_argmax i)
    (hracc : ∀ i, i < n → target_probs i (draft i) /
      (if IS_NGRAM then 1 else draft_probs i (draft i)) ≥ uniform_probs i) :
    (parse_output_row (rejection_greedy_sample_row msl draft target_argmax
        bonus true) = (List.range n).map draft ++ [bonus] ∧
      (parse_output_row (rejection_greedy_sample_row msl draft target_argmax
        bonus true)).length = n + 1 ∧
      (parse_output_row (rejection_greedy_sample_row msl draft target_argmax
        bonus true)).getLast? = some bonus ∧
      (rejection_greedy_sample_row msl draft target_argmax bonus true).getD n
        PLACEHOLDER_TOKEN_ID = bonus) ∧
    (parse_output_row (rejection_random_sample_row msl draft IS_NGRAM
        draft_probs target_probs uniform_probs recovered_token_ids bonus
        false) = (List.range n).map draft ++ [bonus] ∧
      (parse_output_row (rejection_random_sample_row msl draft IS_NGRAM
        draft_probs target_probs uniform_probs recovered_token_ids bonus
        false)).length = n + 1 ∧
      (parse_output_row (rejection_random_sample_row msl draft IS_NGRAM
        draft_probs target_probs uniform_probs recovered_token_ids bonus
        false)).getLast? = some bonus ∧
      (rejection_random_sample_row msl draft IS_NGRAM draft_probs target_probs
        uniform_probs recovered_token_ids bonus false).getD n
        PLACEHOLDER_TOKEN_ID = bonus) := by
  rw [greedy_row_eq, random_row_eq]
  have hliveg : ∀ i, i < n → draft i ≠ PLACEHOLDER_TOKEN_ID ∧
      (fun pos => decide (draft pos = target_argmax pos)) i = true :=
    fun i hi => ⟨hreal i hi, by simp [hgmatch i hi]⟩
  have hliver : ∀ i, i < n → draft i ≠ PLACEHOLDER_TOKEN_ID ∧
      (fun pos => decide (target_probs pos (draft pos) /
        (if IS_NGRAM then 1 else draft_probs pos (draft pos)) ≥
          uniform_probs pos)) i = true :=
    fun i hi => ⟨hreal i hi, by
      simp only [decide_eq_true_eq]
      exact hracc i hi⟩
  have hg := parse_verify_row_accept msl n draft _ target_argmax bonus hn
    hliveg hpad hbonus
  have hr := parse_verify_row_accept msl n draft _ recovered_token_ids bonus
    hn hliver hpad hbonus
  have hgchar := verify_row_accept_char msl n draft _ target_argmax bonus hn
    hliveg hpad
  have hrchar := verify_row_accept_char msl n draft _ recovered_token_ids
    bonus hn hliver hpad
  refine ⟨⟨hg, ?_, ?_, ?_⟩, hr, ?_, ?_, ?_⟩
  · rw [hg]
    simp
  · rw [hg]
    exact List.getLast?_concat _
  · rw [hgchar n, if_neg (by omega), if_pos rfl]
  · rw [hr]
    simp
  · rw [hr]
    exact List.getLast?_concat _
  · rw [hrchar n, if_neg (by omega), if_pos rfl]

/-- Witness for C3: the spec scenario — greedy draft `[5, 7]` with matching
target arg-max, bonus `42`: the extracted greedy row is `[5, 7, 42]`. -/
theorem C3_no_rejection_witness :
    (2 : Nat) ≤ 2 ∧
    parse_output_row (rejection_greedy_sample_row 2
      (fun q => if q = 0 then 5 else 7) (fun q => if q = 0 then 5 else 7)
      42 true) = (List.range 2).map (fun q => if q = 0 then 5 else 7) ++ [42] :=
  ⟨by decide,
    (C3_no_rejection 2 2 (fun q => if q = 0 then 5 else 7)
      (fun q => if q = 0 then 5 else 7) true (fun _ _ => 1) (fun _ _ => 1)
      (fun _ => 0) (fun _ => 33) 42 (by decide)
      (fun i hi => by
        show (if i = 0 then (5 : Int) else 7) ≠ PLACEHOLDER_TOKEN_ID
        split_ifs <;> decide)
      (fun h => absurd h (by decide))
      (by decide)
      (fun i hi => rfl)
      (fun i hi => by simp)).1.1⟩

/-- A row whose profile is a prefix of non-placeholder tokens, one arbitrary
cell at `m`, and placeholders beyond is a contiguous prefix. -/
theorem contiguous_of_char (l : List Int) (g : Nat → Int) (m : Nat) (v : Int)
    (hchar : ∀ j, l.getD j PLACEHOLDER_TOKEN_ID =
      if j < m then g j else if j = m then v else PLACEHOLDER_TOKEN_ID)
    (hg : ∀ j, j < m → g j ≠ PLACEHOLDER_TOKEN_ID)
    (p q : Nat) (hpq : p < q)
    (hph : l.getD p PLACEHOLDER_TOKEN_ID = PLACEHOLDER_TOKEN_ID) :
    l.getD q PLACEHOLDER_TOKEN_ID = PLACEHOLDER_TOKEN_ID := by
  have hpm : m ≤ p := by
    by_contra h
    push_neg at h
    rw [hchar p, if_pos h] at hph
    exact hg p h hph
  rw [hchar q, if_neg (by omega), if_neg (by omega)]

/-- Every `verify_row` is a contiguous prefix: a placeholder is never followed
by a real token. -/
theorem verify_row_contiguous (msl : Nat) (draft : Nat → Int)
    (accept : Nat → Bool) (reject_token : Nat → Int) (bonus : Int)
    (p q : Nat) (hpq : p < q)
    (hph : (verify_row msl draft accept reject_token bonus).getD p
      PLACEHOLDER_TOKEN_ID = PLACEHOLDER_TOKEN_ID) :
    (verify_row msl draft accept reject_token bonus).getD q
      PLACEHOLDER_TOKEN_ID = PLACEHOLDER_TOKEN_ID := by
  by_cases hex : ∃ i, i < msl ∧
    (draft i = PLACEHOLDER_TOKEN_ID ∨ accept i = false)
  · have hk := Nat.find_spec hex
    have hmin : ∀ i, i < Nat.find hex →
        draft i ≠ PLACEHOLDER_TOKEN_ID ∧ accept i = true := by
      intro i hi
      have h := Nat.find_min hex hi
      push_neg at h
      have h2 := h (by omega)
      refine ⟨h2.1, ?_⟩
      cases hacc : accept i
      · exact absurd hacc h2.2
      · rfl
    by_cases hd : draft (Nat.find hex) = PLACEHOLDER_TOKEN_ID
    · exact contiguous_of_char _ draft (Nat.find hex) bonus
        (verify_row_accept_char msl (Nat.find hex) draft accept reject_token
          bonus (by omega) hmin (fun _ => hd))
        (fun j hj => (hmin j hj).1) p q hpq hph
    · have hacc : accept (Nat.find hex) = false := by
        rcases hk.2 with h | h
        · exact absurd h hd
        · exact h
      exact contiguous_of_char _ draft (Nat.find hex)
        (reject_token (Nat.find hex))
        (verify_row_reject_char msl (Nat.find hex) draft accept reject_token
          bonus hk.1 hmin hd hacc)
        (fun j hj => (hmin j hj).1) p q hpq hph
  · push_neg at hex
    have hall : ∀ i, i < msl →
        draft i ≠ PLACEHOLDER_TOKEN_ID ∧ accept i = true := by
      intro i hi
      have h2 := hex i hi
      refine ⟨h2.1, ?_⟩
      cases hacc : accept i
      · exact absurd hacc h2.2
      · rfl
    exact contiguous_of_char _ draft msl bonus
      (verify_row_accept_char msl msl draft accept reject_token bonus
        (le_refl msl) hall (fun h => absurd h (by omega)))
      (fun j hj => (hall j hj).1) p q hpq hph

/-- C7: every row of the output matrix — written by either kernel, or left
untouched by its early exit — is a contiguous prefix: once a position holds
the placeholder, every later position in that row holds the placeholder. -/
theorem C7_output_rows_contiguous (msl : Nat)
    (draft_g target_argmax : Nat → Int) (bonus_g : Int) (g_flag : Bool)
    (draft_r : Nat → Int) (IS_NGRAM : Bool)
    (draft_probs target_probs : Nat → Int → ℚ) (uniform_probs : Nat → ℚ)
    (recovered_token_ids : Nat → Int) (bonus_r : Int) (r_flag : Bool)
    (p q : Nat) (hpq : p < q) :
    ((rejection_greedy_sample_row msl draft_g target_argmax bonus_g
        g_flag).getD p PLACEHOLDER_TOKEN_ID = PLACEHOLDER_TOKEN_ID →
      (rejection_greedy_sample_row msl draft_g target_argmax bonus_g
        g_flag).getD q PLACEHOLDER_TOKEN_ID = PLACEHOLDER_TOKEN_ID) ∧
    ((rejection_random_sample_row msl draft_r IS_NGRAM draft_probs
        target_probs uniform_probs recovered_token_ids bonus_r r_flag).getD p
        PLACEHOLDER_TOKEN_ID = PLACEHOLDER_TOKEN_ID →
      (rejection_random_sample_row msl draft_r IS_NGRAM draft_probs
        target_probs uniform_probs recovered_token_ids bonus_r r_flag).getD q
        PLACEHOLDER_TOKEN_ID = PLACEHOLDER_TOKEN_ID) := by
  constructor
  · cases g_flag
    · intro _
      show (init_state msl).out.getD q PLACEHOLDER_TOKEN_ID
        = PLACEHOLDER_TOKEN_ID
      exact init_out_getD msl q
    · rw [greedy_row_eq]
      exact verify_row_contiguous msl draft_g _ target_argmax bonus_g p q hpq
  · cases r_flag
    · rw [random_row_eq]
      exact verify_row_contiguous msl draft_r _ recovered_token_ids bonus_r
        p q hpq
    · intro _
      show (init_state msl).out.getD q PLACEHOLDER_TOKEN_ID
        = PLACEHOLDER_TOKEN_ID
      exact init_out_getD msl q

/-- Witness for C7 at a concrete batch row: draft `[5, -1]`, matching arg-max
at position 0, so the greedy row is `[5, 42, -1]`; position 2 holds the
placeholder because position 2 does (trivially), and for the random row the
instantiation is the early-exit row. -/
theorem C7_output_rows_contiguous_witness :
    2 < 3 ∧
    (rejection_greedy_sample_row 2 (fun q => if q = 0 then 5 else -1)
      (fun q => if q = 0 then 5 else 9) 42 true).getD 3 PLACEHOLDER_TOKEN_ID
      = PLACEHOLDER_TOKEN_ID :=
  ⟨by decide,
    (C7_output_rows_contiguous 2 (fun q => if q = 0 then 5 else -1)
      (fun q => if q = 0 then 5 else 9) 42 true
      (fun _ => -1) true (fun _ _ => 1) (fun _ _ => 1) (fun _ => 0)
      (fun _ => 33) 42 true 2 3 (by decide)).1 (by decide)⟩

/-- Clamp of a draft token id before scatter-indexing: the placeholder id is
replaced by the safe default 0 (`torch.where(draft_token_ids ==
PLACEHOLDER_TOKEN_ID, 0, draft_token_ids)`). -/
def safe_draft_token_id (draft_token_id : Int) : Int :=
  if draft_token_id = PLACEHOLDER_TOKEN_ID then 0 else draft_token_id

/-- Residual row in n-gram mode: the target row with the probability mass at
the (clamped) drafted-token index set to 0 (`probs.scatter_(2, ..., 0)` on a
clone of the target probabilities). -/
def residual_row_ngram (target_row : List ℚ) (draft_token_id : Int) : List ℚ :=
  target_row.set (safe_draft_token_id draft_token_id).toNat 0

/-- Residual row when draft probabilities are present:
`torch.clamp(target_probs - draft_probs, min=eps)` elementwise, where `eps`
models `torch.finfo(torch.float32).tiny`, the smallest positive normal value
of the working floating-point type. -/
def residual_row_probs (eps : ℚ) (target_row draft_row : List ℚ) : List ℚ :=
  List.zipWith (fun t d => max (t - d) eps) target_row draft_row

/-- Renormalization of a row: `probs /= probs.sum(dim=-1, keepdim=True)`. -/
def normalize_row (row : List ℚ) : List ℚ :=
  row.map (fun x => x / row.sum)

/-- Residual distribution row of `rejection_sample` (lines 163–175): the
branch on `is_ngram` followed by the renormalization. -/
def residual_row (eps : ℚ) (is_ngram : Bool) (target_row draft_row : List ℚ)
    (draft_token_id : Int) : List ℚ :=
  normalize_row (if is_ngram then residual_row_ngram target_row draft_token_id
    else residual_row_probs eps target_row draft_row)

theorem sum_map_div (l : List ℚ) (s : ℚ) :
    (l.map (fun x => x / s)).sum = l.sum / s := by
  induction l with
  | nil => simp
  | cons x xs ih => simp [ih, add_div]

theorem normalize_row_sum (row : List ℚ) (h : row.sum ≠ 0) :
    (normalize_row row).sum = 1 := by
  rw [normalize_row, sum_map_div, div_self h]

theorem sum_pos_of_nonneg_of_mem (l : List ℚ) (h0 : ∀ x ∈ l, 0 ≤ x)
    (x : ℚ) (hx : x ∈ l) (hxpos : 0 < x) : 0 < l.sum := by
  induction l with
  | nil => cases hx
  | cons y ys ih =>
    rw [List.sum_cons]
    rcases List.mem_cons.mp hx with h | h
    · subst h
      have h2 : 0 ≤ ys.sum :=
        List.sum_nonneg (fun z hz => h0 z (List.mem_cons_of_mem _ hz))
      linarith
    · have h2 : 0 < ys.sum :=
        ih (fun z hz => h0 z (List.mem_cons_of_mem _ hz)) h
      have h3 : 0 ≤ y := h0 y (List.mem_cons_self _ _)
      linarith

theorem residual_row_ngram_mem_nonneg (target_row : List ℚ)
    (draft_token_id : Int) (hpos : ∀ x ∈ target_row, 0 < x) :
    ∀ x ∈ residual_row_ngram target_row draft_token_id, 0 ≤ x := by
  intro x hx
  rcases List.mem_or_eq_of_mem_set hx with h | h
  · exact le_of_lt (hpos x h)
  · rw [h]

theorem sum_set_zero_pos (l : List ℚ) (idx : Nat)
    (hpos : ∀ x ∈ l, 0 < x) (hlen : 2 ≤ l.length) :
    0 < (l.set idx 0).sum := by
  have hjlen : (if idx = 0 then 1 else 0) < l.length := by
    split_ifs <;> omega
  have hjne : idx ≠ (if idx = 0 then 1 else 0) := by
    split_ifs with h <;> omega
  have hmem : l.get ⟨if idx = 0 then 1 else 0, hjlen⟩ ∈ l.set idx 0 := by
    refine List.getElem?_mem (n := if idx = 0 then 1 else 0) ?_
    rw [List.getElem?_set_ne hjne, List.getElem?_eq_getElem hjlen]
    rfl
  refine sum_pos_of_nonneg_of_mem _ ?_ _ hmem
    (hpos _ (List.get_mem _ _ _))
  intro x hx
  rcases List.mem_or_eq_of_mem_set hx with h | h
  · exact le_of_lt (hpos x h)
  · rw [h]

theorem residual_row_ngram_sum_pos (target_row : List ℚ)
    (draft_token_id : Int) (hpos : ∀ x ∈ target_row, 0 < x)
    (hlen : 2 ≤ target_row.length) :
    0 < (residual_row_ngram target_row draft_token_id).sum := by
  rw [residual_row_ngram]
  exact sum_set_zero_pos target_row _ hpos hlen

theorem residual_row_probs_mem_ge (eps : ℚ) :
    ∀ (l1 l2 : List ℚ), ∀ x ∈ residual_row_probs eps l1 l2, eps ≤ x
  | [], _, x, hx => by cases hx
  | _ :: _, [], x, hx => by cases hx
  | t :: ts, d :: ds, x, hx => by
    rcases List.mem_cons.mp hx with h | h
    · rw [h]
      exact le_max_right _ _
    · exact residual_row_probs_mem_ge eps ts ds x h

theorem residual_row_probs_sum_pos (eps : ℚ) (target_row draft_row : List ℚ)
    (heps : 0 < eps) (hne : target_row ≠ [])
    (hlen : target_row.length = draft_row.length) :
    0 < (residual_row_probs eps target_row draft_row).sum := by
  refine List.sum_pos _ (fun x hx =>
    lt_of_lt_of_le heps (residual_row_probs_mem_ge eps _ _ x hx)) ?_
  rw [residual_row_probs]
  intro h
  have h2 := congrArg List.length h
  simp only [List.length_zipWith, List.length_nil] at h2
  rw [← hlen] at h2
  have h3 : target_row.length ≠ 0 := fun h4 => hne (List.eq_nil_of_length_eq_zero h4)
  omega

/-- C4: the residual probability constructor produces proper distribution
rows.  In n-gram mode it zeroes the (clamped) drafted-token entry of a copy
of the target row; otherwise it takes `max(target − draft, ε)` elementwise
with `ε > 0`.  In both cases the pre-normalization sum is strictly positive
(never exactly zero) and the renormalized row is nonnegative and sums to 1. -/
theorem C4_residual_proper (eps : ℚ) (t1 : List ℚ) (tok : Int)
    (t2 d2 : List ℚ)
    (h1pos : ∀ x ∈ t1, 0 < x) (h1len : 2 ≤ t1.length)
    (heps : 0 < eps) (h2ne : t2 ≠ []) (h2len : t2.length = d2.length) :
    0 < (residual_row_ngram t1 tok).sum ∧
    (residual_row eps true t1 d2 tok).sum = 1 ∧
    (∀ x ∈ residual_row eps true t1 d2 tok, 0 ≤ x) ∧
    0 < (residual_row_probs eps t2 d2).sum ∧
    (residual_row eps false t2 d2 tok).sum = 1 ∧
    (∀ x ∈ residual_row eps false t2 d2 tok, 0 ≤ x) := by
  have hng := residual_row_ngram_sum_pos t1 tok h1pos h1len
  have hpr := residual_row_probs_sum_pos eps t2 d2 heps h2ne h2len
  refine ⟨hng, ?_, ?_, hpr, ?_, ?_⟩
  · rw [residual_row, if_pos rfl]
    exact normalize_row_sum _ (ne_of_gt hng)
  · rw [residual_row, if_pos rfl]
    intro x hx
    rw [normalize_row] at hx
    obtain ⟨y, hy, rfl⟩ := List.mem_map.mp hx
    exact div_nonneg
      (residual_row_ngram_mem_nonneg t1 tok h1pos y hy) (le_of_lt hng)
  · rw [residual_row, if_neg (Bool.false_ne_true)]
    exact normalize_row_sum _ (ne_of_gt hpr)
  · rw [residual_row, if_neg (Bool.false_ne_true)]
    intro x hx
    rw [normalize_row] at hx
    obtain ⟨y, hy, rfl⟩ := List.mem_map.mp hx
    exact div_nonneg
      (le_trans (le_of_lt heps) (residual_row_probs_mem_ge eps t2 d2 y hy))
      (le_of_lt hpr)

/-- Witness for C4: target row `[1, 1]` with draft token 0 in n-gram mode,
and `max([2, 2] − [1, 1], ε)` with `ε = 1` otherwise; both residual rows
renormalize to sum 1. -/
theorem C4_residual_proper_witness :
    (0 : ℚ) < 1 ∧
    (residual_row 1 true [1, 1] [1, 1] 0).sum = 1 ∧
    (residual_row 1 false [2, 2] [1, 1] 0).sum = 1 :=
  ⟨by decide,
    (C4_residual_proper 1 [1, 1] 0 [2, 2] [1, 1]
      (fun x hx => by
        rcases List.mem_cons.mp hx with h | h
        · rw [h]; decide
        · rcases List.mem_cons.mp h with h2 | h2
          · rw [h2]; decide
          · cases h2)
      (by decide) (by decide) (by decide) (by decide)).2.1,
    (C4_residual_proper 1 [1, 1] 0 [2, 2] [1, 1]
      (fun x hx => by
        rcases List.mem_cons.mp hx with h | h
        · rw [h]; decide
        · rcases List.mem_cons.mp h with h2 | h2
          · rw [h2]; decide
          · cases h2)
      (by decide) (by decide) (by decide) (by decide)).2.2.2.2.1⟩

/-- Tail of the first arg-max scan: current best index, current best value,
index of the next element. -/
def argmaxGo : Nat → ℚ → Nat → List ℚ → Nat
  | best, _, _, [] => best
  | best, bestVal, i, x :: xs =>
    if bestVal < x then argmaxGo i x (i + 1) xs
    else argmaxGo best bestVal (i + 1) xs

/-- Index of the first maximal element of a list (`argmax(dim=-1)`; ties
resolve to the first maximum). -/
def listArgmax : List ℚ → Nat
  | [] => 0
  | x :: xs => argmaxGo 0 x 1 xs

/-- Recovered token of one request at position `pos`
(`rejection_sample` lines 177–189): the request's single vocabulary-wide
exponential vector `q` is broadcast over positions
(`q = q.unsqueeze(dim=1)`), the per-position residual row is divided by it
elementwise, and the arg-max index is taken
(`recovered_token_ids = probs.div_(q).argmax(dim=-1)`). -/
def recovered_token_id (residual : Nat → List ℚ) (q : List ℚ)
    (pos : Nat) : Nat :=
  listArgmax (List.zipWith (fun p e => p / e) (residual pos) q)

/-- Counterexample to C5: with residual rows `[1, 0]` at position 0 and
`[0, 1]` at position 1 and the shared exponential vector `[1, 1]`, the
recovered token is 0 at position 0 but 1 at position 1 — one recovered token
per (row, position), not one per row — and the random kernel writes the
position-dependent token at whichever position rejects first: with uniform
draws rejecting at position 0 it writes token 0 there, with uniform draws
accepting position 0 and rejecting position 1 it writes token 1 there. -/
theorem C5_counterexample :
    recovered_token_id (fun pos => if pos = 0 then [1, 0] else [0, 1]) [1, 1]
        0 ≠
      recovered_token_id (fun pos => if pos = 0 then [1, 0] else [0, 1])
        [1, 1] 1 ∧
    (rejection_random_sample_row 2 (fun q => if q = 0 then 5 else 7) true
      (fun _ _ => 1) (fun _ _ => 0) (fun _ => 1)
      (fun pos => (recovered_token_id
        (fun pos2 => if pos2 = 0 then [1, 0] else [0, 1]) [1, 1] pos : Int))
      42 false).getD 0 PLACEHOLDER_TOKEN_ID = 0 ∧
    (rejection_random_sample_row 2 (fun q => if q = 0 then 5 else 7) true
      (fun _ _ => 1) (fun pos _ => if pos = 0 then 1 else 0)
      (fun pos => if pos = 0 then 0 else 1)
      (fun pos => (recovered_token_id
        (fun pos2 => if pos2 = 0 then [1, 0] else [0, 1]) [1, 1] pos : Int))
      42 false).getD 1 PLACEHOLDER_TOKEN_ID = 1 := by
  refine ⟨?_, ?_, ?_⟩
  · show listArgmax (List.zipWith (fun p e => p / e) [1, 0] [1, 1]) ≠
      listArgmax (List.zipWith (fun p e => p / e) [0, 1] [1, 1])
    simp [listArgmax, argmaxGo]
  · rw [random_row_eq]
    have hchar := verify_row_reject_char 2 0 (fun q => if q = 0 then 5 else 7)
      (fun pos => decide ((fun _ _ => (0 : ℚ)) pos
        ((fun q => if q = 0 then (5 : Int) else 7) pos) /
        (if (true : Bool) then 1 else (fun _ _ => (1 : ℚ)) pos
          ((fun q => if q = 0 then (5 : Int) else 7) pos)) ≥
        (fun _ => (1 : ℚ)) pos))
      (fun pos => (recovered_token_id
        (fun pos2 => if pos2 = 0 then [1, 0] else [0, 1]) [1, 1] pos : Int))
      42 (by decide) (fun i hi => absurd hi (by omega)) (by decide) (by simp)
    rw [hchar 0, if_neg (by omega), if_pos rfl]
    show (recovered_token_id
      (fun pos2 => if pos2 = 0 then [1, 0] else [0, 1]) [1, 1] 0 : Int) = 0
    show (listArgmax (List.zipWith (fun p e => p / e) [1, 0] [1, 1]) : Int) = 0
    simp [listArgmax, argmaxGo]
  · rw [random_row_eq]
    have hchar := verify_row_reject_char 2 1 (fun q => if q = 0 then 5 else 7)
      (fun pos => decide ((fun pos2 _ => if pos2 = 0 then (1 : ℚ) else 0) pos
        ((fun q => if q = 0 then (5 : Int) else 7) pos) /
        (if (true : Bool) then 1 else (fun _ _ => (1 : ℚ)) pos
          ((fun q => if q = 0 then (5 : Int) else 7) pos)) ≥
        (fun pos2 => if pos2 = 0 then (0 : ℚ) else 1) pos))
      (fun pos => (recovered_token_id
        (fun pos2 => if pos2 = 0 then [1, 0] else [0, 1]) [1, 1] pos : Int))
      42 (by decide)
      (fun i hi => by
        have h0 : i = 0 := by omega
        subst h0
        exact ⟨by decide, by simp⟩)
      (by decide) (by simp)
    rw [hchar 1, if_neg (by omega), if_pos rfl]
    show (recovered_token_id
      (fun pos2 => if pos2 = 0 then [1, 0] else [0, 1]) [1, 1] 1 : Int) = 1
    show (listArgmax (List.zipWith (fun p e => p / e) [0, 1] [1, 1]) : Int) = 1
    simp [listArgmax, argmaxGo]

/-- C5 (amended): one vocabulary-wide exponential draw is computed per
request and shared across all positions of that row — recovery never redraws
randomness per position, so two positions with equal residual rows recover
the same token — but a recovered token is computed per (row, position), and
the token written at the position that first triggers a rejection is that
position's recovered token: the arg-max of the position's residual row
divided elementwise by the shared draw. -/
theorem C5_amended_recovery (residual : Nat → List ℚ) (q : List ℚ)
    (msl p : Nat) (draft : Nat → Int) (IS_NGRAM : Bool)
    (draft_probs target_probs : Nat → Int → ℚ) (uniform_probs : Nat → ℚ)
    (bonus : Int)
    (hp : p < msl)
    (hnoph : ∀ i, i ≤ p → draft i ≠ PLACEHOLDER_TOKEN_ID)
    (hacc : ∀ i, i < p → target_probs i (draft i) /
      (if IS_NGRAM then 1 else draft_probs i (draft i)) ≥ uniform_probs i)
    (hrej : ¬ target_probs p (draft p) /
      (if IS_NGRAM then 1 else draft_probs p (draft p)) ≥ uniform_probs p) :
    (∀ p1 p2, residual p1 = residual p2 →
      recovered_token_id residual q p1 = recovered_token_id residual q p2) ∧
    (rejection_random_sample_row msl draft IS_NGRAM draft_probs target_probs
      uniform_probs
      (fun pos => (recovered_token_id residual q pos : Int)) bonus
      false).getD p PLACEHOLDER_TOKEN_ID =
      (recovered_token_id residual q p : Int) := by
  refine ⟨fun p1 p2 h => by
    rw [recovered_token_id, recovered_token_id, h], ?_⟩
  rw [random_row_eq]
  have hchar := verify_row_reject_char msl p draft
    (fun pos => decide (target_probs pos (draft pos) /
      (if IS_NGRAM then 1 else draft_probs pos (draft pos)) ≥
        uniform_probs pos))
    (fun pos => (recovered_token_id residual q pos : Int)) bonus hp
    (fun i hi => ⟨hnoph i (by omega), by
      simp only [decide_eq_true_eq]
      exact hacc i hi⟩)
    (hnoph p (le_refl p))
    (by simp only [decide_eq_false_iff_not]; exact hrej)
  rw [hchar p, if_neg (by omega), if_pos rfl]

/-- Witness for the amended C5 at the counterexample's run A: rejection at
position 0 writes that position's recovered token. -/
theorem C5_amended_recovery_witness :
    0 < 2 ∧
    (rejection_random_sample_row 2 (fun q => if q = 0 then 5 else 7) true
      (fun _ _ => 1) (fun _ _ => 0) (fun _ => 1)
      (fun pos => (recovered_token_id
        (fun pos2 => if pos2 = 0 then [2, 0] else [0, 2]) [1, 1] pos : Int))
      42 false).getD 0 PLACEHOLDER_TOKEN_ID =
      (recovered_token_id
        (fun pos2 => if pos2 = 0 then [2, 0] else [0, 2]) [1, 1] 0 : Int) :=
  ⟨by decide,
    (C5_amended_recovery
      (fun pos2 => if pos2 = 0 then [2, 0] else [0, 2]) [1, 1] 2 0
      (fun q => if q = 0 then 5 else 7) true (fun _ _ => 1) (fun _ _ => 0)
      (fun _ => 1) 42 (by decide)
      (fun i hi => by
        show (if i = 0 then (5 : Int) else 7) ≠ PLACEHOLDER_TOKEN_ID
        split_ifs <;> decide)
      (fun i hi => absurd hi (by omega))
      (by simp)).2⟩

/-- Maximum draft length of the batch (`max_spec_len = max(num_draft_tokens)`,
0 for an empty batch). -/
def max_spec_len_of (draft_token_ids : List (List Int)) : Nat :=
  (draft_token_ids.map List.length).foldl max 0

/-- One row of the staging buffer written by
`RejectionSampler._async_copy_to_device`: the row is placeholder-filled, then
the request's tokens are written at its start. -/
def materialize_row (token_ids : List Int) (max_spec_len : Nat) : List Int :=
  token_ids ++ List.replicate (max_spec_len - token_ids.length)
    PLACEHOLDER_TOKEN_ID

/-- The `[batch_size, max_spec_len]` draft matrix built by
`RejectionSampler._async_copy_to_device` on the successful path (after the
capacity check passes). -/
def materialize (draft_token_ids : List (List Int)) : List (List Int) :=
  draft_token_ids.map
    (fun token_ids => materialize_row token_ids
      (max_spec_len_of draft_token_ids))

theorem foldl_max_le_init (l : List Nat) (a : Nat) : a ≤ l.foldl max a := by
  induction l generalizing a with
  | nil => exact le_refl a
  | cons x xs ih => exact le_trans (le_max_left a x) (ih (max a x))

theorem mem_le_foldl_max (l : List Nat) (a x : Nat) (hx : x ∈ l) :
    x ≤ l.foldl max a := by
  induction l generalizing a with
  | nil => cases hx
  | cons y ys ih =>
    rcases List.mem_cons.mp hx with h | h
    · subst h
      exact le_trans (le_max_right a x) (foldl_max_le_init ys (max a x))
    · exact ih (max a y) h

theorem length_le_max_spec_len (draft_token_ids : List (List Int))
    (ts : List Int) (h : ts ∈ draft_token_ids) :
    ts.length ≤ max_spec_len_of draft_token_ids :=
  mem_le_foldl_max _ 0 _ (List.mem_map_of_mem List.length h)

theorem range_map_getD (l : List Int) (d : Int) :
    (List.range l.length).map (fun i => l.getD i d) = l := by
  apply List.ext_getElem
  · simp
  · intro i h1 h2
    simp [List.getD_eq_getElem?_getD, List.getElem?_eq_getElem h2]

theorem materialize_row_getD_lt (ts : List Int) (msl i : Nat)
    (hi : i < ts.length) :
    (materialize_row ts msl).getD i PLACEHOLDER_TOKEN_ID =
      ts.getD i PLACEHOLDER_TOKEN_ID := by
  rw [materialize_row]
  simp [List.getD_eq_getElem?_getD, List.getElem?_append_left hi]

theorem materialize_row_getD_pad (ts : List Int) (msl : Nat)
    (hlen : ts.length < msl) :
    (materialize_row ts msl).getD ts.length PLACEHOLDER_TOKEN_ID =
      PLACEHOLDER_TOKEN_ID := by
  rw [materialize_row]
  simp only [List.getD_eq_getElem?_getD,
    List.getElem?_append_right (le_refl ts.length), Nat.sub_self,
    List.getElem?_replicate]
  rw [if_pos (by omega)]
  rfl

/-- Extraction of the all-accepted greedy row over a materialized draft row:
the original tokens with the bonus appended. -/
theorem parse_all_accepted_row (ts : List Int) (msl : Nat) (bonus : Int)
    (hle : ts.length ≤ msl)
    (htok : ∀ t ∈ ts, t ≠ PLACEHOLDER_TOKEN_ID)
    (hbonus : bonus ≠ PLACEHOLDER_TOKEN_ID) :
    parse_output_row (rejection_greedy_sample_row msl
      (fun pos => (materialize_row ts msl).getD pos PLACEHOLDER_TOKEN_ID)
      (fun pos => (materialize_row ts msl).getD pos PLACEHOLDER_TOKEN_ID)
      bonus true) = ts ++ [bonus] := by
  rw [greedy_row_eq]
  have hdraft : ∀ i, i < ts.length →
      (materialize_row ts msl).getD i PLACEHOLDER_TOKEN_ID ≠
        PLACEHOLDER_TOKEN_ID := by
    intro i hi
    rw [materialize_row_getD_lt ts msl i hi, List.getD_eq_getElem?_getD,
      List.getElem?_eq_getElem hi]
    exact htok _ (List.getElem_mem hi)
  have hparse := parse_verify_row_accept msl ts.length
    (fun pos => (materialize_row ts msl).getD pos PLACEHOLDER_TOKEN_ID)
    (fun pos => decide
      ((materialize_row ts msl).getD pos PLACEHOLDER_TOKEN_ID =
        (materialize_row ts msl).getD pos PLACEHOLDER_TOKEN_ID))
    (fun pos => (materialize_row ts msl).getD pos PLACEHOLDER_TOKEN_ID)
    bonus hle
    (fun i hi => ⟨hdraft i hi, by simp⟩)
    (fun h => materialize_row_getD_pad ts msl h)
    hbonus
  rw [hparse]
  congr 1
  rw [show (List.range ts.length).map
      (fun pos => (materialize_row ts msl).getD pos PLACEHOLDER_TOKEN_ID) =
      (List.range ts.length).map
        (fun pos => ts.getD pos PLACEHOLDER_TOKEN_ID) from
    List.map_congr_left (fun i hi =>
      materialize_row_getD_lt ts msl i (List.mem_range.mp hi))]
  exact range_map_getD ts PLACEHOLDER_TOKEN_ID

/-- All-accepted synthetic output over a materialized batch: each row is the
greedy kernel's result when the target arg-max equals the draft row itself,
i.e. the draft tokens, the request's bonus token, then placeholders. -/
def all_accepted_output (draft_token_ids : List (List Int))
    (bonus_token_ids : List Int) : List (List Int) :=
  List.zipWith
    (fun row bonus => rejection_greedy_sample_row
      (max_spec_len_of draft_token_ids)
      (fun pos => row.getD pos PLACEHOLDER_TOKEN_ID)
      (fun pos => row.getD pos PLACEHOLDER_TOKEN_ID) bonus true)
    (materialize draft_token_ids) bonus_token_ids

theorem parse_zipWith_all_accepted (msl : Nat) :
    ∀ (dts : List (List Int)) (bs : List Int),
    (∀ ts ∈ dts, ts.length ≤ msl) →
    (∀ ts ∈ dts, ∀ t ∈ ts, t ≠ PLACEHOLDER_TOKEN_ID) →
    (∀ b ∈ bs, b ≠ PLACEHOLDER_TOKEN_ID) →
    parse_output (List.zipWith
      (fun row bonus => rejection_greedy_sample_row msl
        (fun pos => row.getD pos PLACEHOLDER_TOKEN_ID)
        (fun pos => row.getD pos PLACEHOLDER_TOKEN_ID) bonus true)
      (dts.map (fun ts => materialize_row ts msl)) bs) =
    List.zipWith (fun ts b => ts ++ [b]) dts bs
  | [], bs, _, _, _ => by simp [parse_output]
  | t :: ts, [], _, _, _ => by simp [parse_output]
  | t :: ts, b :: bs, h1, h2, h3 => by
    simp only [List.map_cons, List.zipWith_cons_cons, parse_output,
      List.map_cons]
    congr 1
    · exact parse_all_accepted_row t msl b (h1 t (List.mem_cons_self _ _))
        (h2 t (List.mem_cons_self _ _)) (h3 b (List.mem_cons_self _ _))
    · exact parse_zipWith_all_accepted msl ts bs
        (fun x hx => h1 x (List.mem_cons_of_mem _ hx))
        (fun x hx => h2 x (List.mem_cons_of_mem _ hx))
        (fun x hx => h3 x (List.mem_cons_of_mem _ hx))

/-- C9: packing a ragged batch of draft-token lists with the materializer,
building the all-accepted output (each row: draft tokens, bonus token,
placeholders), and extracting with the output extractor recovers exactly the
original draft tokens with each request's bonus token appended. -/
theorem C9_round_trip (draft_token_ids : List (List Int))
    (bonus_token_ids : List Int)
    (htok : ∀ ts ∈ draft_token_ids, ∀ t ∈ ts, t ≠ PLACEHOLDER_TOKEN_ID)
    (hbonus : ∀ b ∈ bonus_token_ids, b ≠ PLACEHOLDER_TOKEN_ID) :
    parse_output (all_accepted_output draft_token_ids bonus_token_ids) =
      List.zipWith (fun ts b => ts ++ [b]) draft_token_ids
        bonus_token_ids := by
  rw [all_accepted_output, materialize]
  exact parse_zipWith_all_accepted (max_spec_len_of draft_token_ids)
    draft_token_ids bonus_token_ids
    (fun ts h => length_le_max_spec_len _ ts h) htok hbonus

/-- Witness for C9: the ragged batch `[[5], [6, 7]]` with bonus tokens
`[42, 43]` round-trips to `[[5, 42], [6, 7, 43]]`. -/
theorem C9_round_trip_witness :
    ((42 : Int) ≠ PLACEHOLDER_TOKEN_ID) ∧
    parse_output (all_accepted_output [[5], [6, 7]] [42, 43]) =
      List.zipWith (fun ts b => ts ++ [b]) [[5], [6, 7]] [42, 43] :=
  ⟨by decide,
    C9_round_trip [[5], [6, 7]] [42, 43] (by decide) (by decide)⟩

/-- Packed flat row index of `(req, pos)` in the `[num_tokens, vocab_size]`
layout written by `compute_probs_kernel`: `start_idx + pos`, where
`start_idx` is `cu_num_draft_tokens[req - 1]` (0 for the first request),
i.e. the sum of the draft lengths of all earlier requests. -/
def packed_row_idx (num_draft_tokens : List Nat) (req pos : Nat) : Nat :=
  (num_draft_tokens.take req).sum + pos

/-- Dense flat row index of `(req, pos)` used by
`rejection_random_sample_kernel` and the residual construction over the
logical `[batch_size, max_spec_len, vocab_size]` view:
`seq_idx * max_spec_len + pos`. -/
def dense_row_idx (max_spec_len req pos : Nat) : Nat :=
  req * max_spec_len + pos

theorem sum_take_le (ns : List Nat) (k m : Nat)
    (h : ∀ j, j < k → ns.getD j 0 ≤ m) : (ns.take k).sum ≤ k * m := by
  induction ns generalizing k with
  | nil => simp
  | cons x xs ih =>
    cases k with
    | zero => simp
    | succ k2 =>
      rw [List.take_succ_cons, List.sum_cons]
      have hx : x ≤ m := h 0 (by omega)
      have hrest := ih k2 (fun j hj => h (j + 1) (by omega))
      calc x + (xs.take k2).sum ≤ m + k2 * m := by omega
      _ = (k2 + 1) * m := by ring

theorem sum_take_eq_of_all (ns : List Nat) (k m : Nat)
    (h : ∀ j, j < k → ns.getD j 0 = m) : (ns.take k).sum = k * m := by
  induction ns generalizing k with
  | nil =>
    cases k with
    | zero => simp
    | succ k2 =>
      have h0 := h 0 (by omega)
      simp only [List.getD_nil] at h0
      subst h0
      simp
  | cons x xs ih =>
    cases k with
    | zero => simp
    | succ k2 =>
      rw [List.take_succ_cons, List.sum_cons]
      have hx : x = m := h 0 (by omega)
      have hrest := ih k2 (fun j hj => h (j + 1) (by omega))
      subst hx
      rw [hrest]
      ring

theorem all_eq_of_sum_take (ns : List Nat) (k m : Nat)
    (hle : ∀ j, j < k → ns.getD j 0 ≤ m)
    (hsum : (ns.take k).sum = k * m) : ∀ j, j < k → ns.getD j 0 = m := by
  induction ns generalizing k with
  | nil =>
    intro j hj
    cases k with
    | zero => omega
    | succ k2 =>
      simp only [List.take_nil, List.sum_nil] at hsum
      have hm : m = 0 := by
        rcases Nat.mul_eq_zero.mp hsum.symm with h | h
        · omega
        · exact h
      simp [hm]
  | cons x xs ih =>
    intro j hj
    cases k with
    | zero => omega
    | succ k2 =>
      rw [List.take_succ_cons, List.sum_cons] at hsum
      have hx : x ≤ m := hle 0 (by omega)
      have hrest_le := sum_take_le xs k2 m (fun j2 hj2 => hle (j2 + 1) (by omega))
      have hxm : x = m := by
        have : (k2 + 1) * m = k2 * m + m := by ring
        omega
      cases j with
      | zero => exact hxm
      | succ j2 =>
        have hrest : (xs.take k2).sum = k2 * m := by
          have : (k2 + 1) * m = k2 * m + m := by ring
          omega
        exact ih k2 (fun j3 hj3 => hle (j3 + 1) (by omega)) hrest j2 (by omega)

/-- Counterexample to C10: the batch with draft lengths `[2, 1]` has
`max_spec_len = 2` and contains a request (the last one) with fewer than
`max_spec_len` draft tokens, yet the packed and dense addressing schemes
agree on every in-range `(request, position)` pair. -/
theorem C10_counterexample :
    (([2, 1] : List Nat).foldl max 0 = 2) ∧
    (∀ req, req < 2 → ∀ pos, pos < ([2, 1] : List Nat).getD req 0 →
      packed_row_idx [2, 1] req pos = dense_row_idx 2 req pos) ∧
    ([2, 1] : List Nat).getD 1 0 < 2 := by
  refine ⟨by decide, ?_, by decide⟩
  decide

/-- C10 (amended): with every draft length at most `max_spec_len`, the packed
addressing (`cumulative offset + pos`) and the dense addressing
(`req * max_spec_len + pos`) coincide on every in-range pair iff every
request that precedes a request with at least one draft token has draft
length exactly `max_spec_len`; a batch whose only short requests are at the
end (followed by no non-empty request) still agrees everywhere. -/
theorem C10_amended_layout_agreement (num_draft_tokens : List Nat)
    (msl : Nat)
    (hmax : ∀ i, i < num_draft_tokens.length →
      num_draft_tokens.getD i 0 ≤ msl) :
    (∀ req, req < num_draft_tokens.length →
      ∀ pos, pos < num_draft_tokens.getD req 0 →
        packed_row_idx num_draft_tokens req pos =
          dense_row_idx msl req pos) ↔
    (∀ j k, j < k → k < num_draft_tokens.length →
      0 < num_draft_tokens.getD k 0 →
        num_draft_tokens.getD j 0 = msl) := by
  constructor
  · intro hagree j k hjk hk hkpos
    have h := hagree k hk 0 hkpos
    rw [packed_row_idx, dense_row_idx] at h
    have hsum : (num_draft_tokens.take k).sum = k * msl := by omega
    exact all_eq_of_sum_take num_draft_tokens k msl
      (fun j2 hj2 => hmax j2 (by omega)) hsum j hjk
  · intro hcond req hreq pos hpos
    rw [packed_row_idx, dense_row_idx]
    have hsum : (num_draft_tokens.take req).sum = req * msl :=
      sum_take_eq_of_all num_draft_tokens req msl
        (fun j hj => hcond j req hj hreq (by omega))
    omega

/-- Witness for the amended C10 at the counterexample batch `[2, 1]` with
`max_spec_len = 2`. -/
theorem C10_amended_layout_agreement_witness :
    (∀ i, i < ([2, 1] : List Nat).length → ([2, 1] : List Nat).getD i 0 ≤ 2) ∧
    ((∀ req, req < ([2, 1] : List Nat).length →
      ∀ pos, pos < ([2, 1] : List Nat).getD req 0 →
        packed_row_idx [2, 1] req pos = dense_row_idx 2 req pos) ↔
    (∀ j k, j < k → k < ([2, 1] : List Nat).length →
      0 < ([2, 1] : List Nat).getD k 0 →
        ([2, 1] : List Nat).getD j 0 = 2)) :=
  ⟨by decide, C10_amended_layout_agreement [2, 1] 2 (by decide)⟩

/-- Numerically stable softmax of a row (`tl.softmax`): subtract the row
maximum, exponentiate, normalize.  The exponential is modelled by the
abstract map `fexp`; every property proved below only uses its strict
positivity. -/
def softmaxStable (fexp : ℚ → ℚ) (row : List ℚ) : List ℚ :=
  normalize_row (row.map (fun x => fexp (x - row.foldl max (row.headD 0))))

/-- The row value written by an in-range `compute_probs_kernel` instance:
the logits row unchanged when the request's temperature is the greedy
sentinel, otherwise the stable softmax of the logits row divided by the
temperature. -/
def target_prob_row (fexp : ℚ → ℚ) (logits : List (List ℚ))
    (temperature : List ℚ) (num_draft_tokens : List Nat)
    (req_idx pos : Nat) : List ℚ :=
  let lrow := logits.getD ((num_draft_tokens.take req_idx).sum + pos) []
  let temp := temperature.getD req_idx 0
  if temp = GREEDY_TEMPERATURE then lrow
  else softmaxStable fexp (lrow.map (fun x => x / temp))

/-- One program instance of `compute_probs_kernel` at grid cell
`(req_idx, pos)`: `start_idx` and `end_idx` are the request's entries of the
cumulative-offset table `cu_num_draft_tokens` (modelled as the prefix sums of
the per-request draft lengths, per the §6 interface contract); instances with
`pos ≥ end_idx - start_idx` return without writing, the others write
`target_prob_row` at packed row `start_idx + pos`. -/
def compute_probs_instance (fexp : ℚ → ℚ) (logits : List (List ℚ))
    (temperature : List ℚ) (num_draft_tokens : List Nat)
    (req_idx pos : Nat) (output_prob : List (List ℚ)) : List (List ℚ) :=
  let start_idx := (num_draft_tokens.take req_idx).sum
  let end_idx := (num_draft_tokens.take (req_idx + 1)).sum
  if pos ≥ end_idx - start_idx then output_prob
  else output_prob.set (start_idx + pos)
    (target_prob_row fexp logits temperature num_draft_tokens req_idx pos)

/-- `compute_probs`: the `[batch_size, max_spec_len]` grid of
`compute_probs_kernel` instances run over the uninitialized
`torch.empty_like(logits)` buffer `init`. -/
def compute_probs (fexp : ℚ → ℚ) (logits : List (List ℚ))
    (temperature : List ℚ) (num_draft_tokens : List Nat)
    (max_spec_len : Nat) (init : List (List ℚ)) : List (List ℚ) :=
  (List.range temperature.length).foldl
    (fun out req_idx =>
      (List.range max_spec_len).foldl
        (fun out2 pos => compute_probs_instance fexp logits temperature
          num_draft_tokens req_idx pos out2) out)
    init

theorem sum_take_succ (ns : List Nat) (k : Nat) :
    (ns.take (k + 1)).sum = (ns.take k).sum + ns.getD k 0 := by
  induction ns generalizing k with
  | nil => simp
  | cons x xs ih =>
    cases k with
    | zero => simp
    | succ k2 =>
      rw [List.take_succ_cons, List.take_succ_cons, List.sum_cons,
        List.sum_cons, ih k2, List.getD_cons_succ]
      omega

theorem sum_take_mono (ns : List Nat) (k k2 : Nat) (h : k ≤ k2) :
    (ns.take k).sum ≤ (ns.take k2).sum := by
  induction k2 with
  | zero =>
    have h0 : k = 0 := by omega
    subst h0
    exact le_refl _
  | succ k3 ih =>
    rcases Nat.lt_or_ge k (k3 + 1) with h2 | h2
    · calc (ns.take k).sum ≤ (ns.take k3).sum := ih (by omega)
      _ ≤ (ns.take (k3 + 1)).sum := by rw [sum_take_succ]; omega
    · have h0 : k = k3 + 1 := by omega
      subst h0
      exact le_refl _

theorem compute_probs_instance_length (fexp : ℚ → ℚ)
    (logits : List (List ℚ)) (temperature : List ℚ)
    (num_draft_tokens : List Nat) (req_idx pos : Nat)
    (out : List (List ℚ)) :
    (compute_probs_instance fexp logits temperature num_draft_tokens req_idx
      pos out).length = out.length := by
  rw [compute_probs_instance]
  split_ifs with h
  · rfl
  · exact List.length_set _ _ _

/-- An instance leaves any row other than its own write target unchanged. -/
theorem compute_probs_instance_untouched (fexp : ℚ → ℚ)
    (logits : List (List ℚ)) (temperature : List ℚ)
    (num_draft_tokens : List Nat) (req_idx pos r : Nat)
    (out : List (List ℚ))
    (hr : r ≠ (num_draft_tokens.take req_idx).sum + pos ∨
      pos ≥ num_draft_tokens.getD req_idx 0) :
    (compute_probs_instance fexp logits temperature num_draft_tokens req_idx
      pos out).getD r [] = out.getD r [] := by
  rw [compute_probs_instance]
  have hn : (num_draft_tokens.take (req_idx + 1)).sum -
      (num_draft_tokens.take req_idx).sum =
      num_draft_tokens.getD req_idx 0 := by
    rw [sum_take_succ]
    omega
  split_ifs with h
  · rfl
  · rw [hn] at h
    rcases hr with hr | hr
    · rw [getD_set, if_neg (fun h2 => hr h2.1.symm)]
    · omega

theorem foldl_getD_preserved (f : List (List ℚ) → Nat → List (List ℚ))
    (L : List Nat) (out : List (List ℚ)) (r : Nat)
    (h : ∀ b ∈ L, ∀ o, (f o b).getD r [] = o.getD r []) :
    (L.foldl f out).getD r [] = out.getD r [] := by
  induction L generalizing out with
  | nil => rfl
  | cons b bs ih =>
    rw [List.foldl_cons,
      ih (f out b) (fun b2 hb2 o => h b2 (List.mem_cons_of_mem _ hb2) o),
      h b (List.mem_cons_self _ _) out]

theorem foldl_length_preserved (f : List (List ℚ) → Nat → List (List ℚ))
    (L : List Nat) (out : List (List ℚ))
    (h : ∀ b ∈ L, ∀ o, (f o b).length = o.length) :
    (L.foldl f out).length = out.length := by
  induction L generalizing out with
  | nil => rfl
  | cons b bs ih =>
    rw [List.foldl_cons,
      ih (f out b) (fun b2 hb2 o => h b2 (List.mem_cons_of_mem _ hb2) o),
      h b (List.mem_cons_self _ _) out]

theorem softmaxStable_sum (fexp : ℚ → ℚ) (row : List ℚ)
    (hfexp : ∀ x, 0 < fexp x) (hne : row ≠ []) :
    (softmaxStable fexp row).sum = 1 := by
  rw [softmaxStable]
  apply normalize_row_sum
  apply ne_of_gt
  apply List.sum_pos
  · intro x hx
    obtain ⟨y, hy, hx2⟩ := List.mem_map.mp hx
    rw [← hx2]
    exact hfexp _
  · rw [ne_eq, List.map_eq_nil_iff]
    exact hne

theorem softmaxStable_nonneg (fexp : ℚ → ℚ) (row : List ℚ)
    (hfexp : ∀ x, 0 < fexp x) (hne : row ≠ []) :
    ∀ x ∈ softmaxStable fexp row, 0 ≤ x := by
  have hsum : 0 < (row.map
      (fun x => fexp (x - row.foldl max (row.headD 0)))).sum := by
    apply List.sum_pos
    · intro x hx
      obtain ⟨y, hy, hx2⟩ := List.mem_map.mp hx
      rw [← hx2]
      exact hfexp _
    · rw [ne_eq, List.map_eq_nil_iff]
      exact hne
  intro x hx
  rw [softmaxStable, normalize_row] at hx
  obtain ⟨y, hy, hx2⟩ := List.mem_map.mp hx
  rw [← hx2]
  obtain ⟨z, hz, hy2⟩ := List.mem_map.mp hy
  refine div_nonneg ?_ (le_of_lt hsum)
  rw [← hy2]
  exact le_of_lt (hfexp _)

/-- Within one request's row of grid instances, the in-range instance at
`pos` determines packed row `start_idx + pos` of the result; the other
instances of the request write elsewhere or skip. -/
theorem reqFold_write (fexp : ℚ → ℚ) (logits : List (List ℚ))
    (temperature : List ℚ) (num_draft_tokens : List Nat)
    (msl req_idx pos : Nat) (out : List (List ℚ))
    (hpos : pos < num_draft_tokens.getD req_idx 0)
    (hmsl : num_draft_tokens.getD req_idx 0 ≤ msl)
    (hlen : (num_draft_tokens.take req_idx).sum + pos < out.length) :
    ((List.range msl).foldl
      (fun out2 p => compute_probs_instance fexp logits temperature
        num_draft_tokens req_idx p out2) out).getD
      ((num_draft_tokens.take req_idx).sum + pos) [] =
    target_prob_row fexp logits temperature num_draft_tokens req_idx pos := by
  have hsplit : List.range msl =
      List.range' 0 pos ++ pos :: List.range' (pos + 1) (msl - pos - 1) := by
    have h2 := List.range'_append_1 0 pos (msl - pos)
    rw [show msl - pos + pos = msl from by omega] at h2
    obtain ⟨k, hk⟩ : ∃ k, msl - pos = k + 1 := ⟨msl - pos - 1, by omega⟩
    rw [List.range_eq_range', ← h2, hk, List.range'_succ, Nat.zero_add,
      Nat.add_sub_cancel]
  rw [hsplit, List.foldl_append, List.foldl_cons]
  have hlen1 : ((List.range' 0 pos).foldl
      (fun out2 p => compute_probs_instance fexp logits temperature
        num_draft_tokens req_idx p out2) out).length = out.length :=
    foldl_length_preserved _ _ _
      (fun p hp o => compute_probs_instance_length _ _ _ _ _ _ _)
  rw [foldl_getD_preserved _ _ _ _
    (fun p2 hp2 o => compute_probs_instance_untouched fexp logits temperature
      num_draft_tokens req_idx p2 _ o
      (Or.inl (by
        obtain ⟨i, hi, heq⟩ := List.mem_range'.mp hp2
        omega)))]
  rw [compute_probs_instance]
  have hn : (num_draft_tokens.take (req_idx + 1)).sum -
      (num_draft_tokens.take req_idx).sum =
      num_draft_tokens.getD req_idx 0 := by
    rw [sum_take_succ]
    omega
  rw [if_neg (by omega)]
  rw [getD_set, if_pos ⟨rfl, by rw [hlen1]; exact hlen⟩]

theorem range_split (n k : Nat) (hk : k < n) :
    List.range n = List.range' 0 k ++ k :: List.range' (k + 1) (n - k - 1) := by
  have h2 := List.range'_append_1 0 k (n - k)
  rw [show n - k + k = n from by omega] at h2
  obtain ⟨m, hm⟩ : ∃ m, n - k = m + 1 := ⟨n - k - 1, by omega⟩
  rw [List.range_eq_range', ← h2, hm, List.range'_succ, Nat.zero_add,
    Nat.add_sub_cancel]

theorem reqFold_untouched (fexp : ℚ → ℚ) (logits : List (List ℚ))
    (temperature : List ℚ) (num_draft_tokens : List Nat)
    (msl req_idx r : Nat) (out : List (List ℚ))
    (hr : ∀ p, p < num_draft_tokens.getD req_idx 0 →
      r ≠ (num_draft_tokens.take req_idx).sum + p) :
    ((List.range msl).foldl
      (fun out2 p => compute_probs_instance fexp logits temperature
        num_draft_tokens req_idx p out2) out).getD r [] = out.getD r [] :=
  foldl_getD_preserved _ _ _ _ (fun p hp o =>
    compute_probs_instance_untouched fexp logits temperature num_draft_tokens
      req_idx p r o (by
        rcases Nat.lt_or_ge p (num_draft_tokens.getD req_idx 0) with h | h
        · exact Or.inl (hr p h)
        · exact Or.inr h))

theorem reqFold_length (fexp : ℚ → ℚ) (logits : List (List ℚ))
    (temperature : List ℚ) (num_draft_tokens : List Nat)
    (msl req_idx : Nat) (out : List (List ℚ)) :
    ((List.range msl).foldl
      (fun out2 p => compute_probs_instance fexp logits temperature
        num_draft_tokens req_idx p out2) out).length = out.length :=
  foldl_length_preserved _ _ _
    (fun p hp o => compute_probs_instance_length _ _ _ _ _ _ _)

theorem compute_probs_length (fexp : ℚ → ℚ) (logits : List (List ℚ))
    (temperature : List ℚ) (num_draft_tokens : List Nat)
    (max_spec_len : Nat) (init : List (List ℚ)) :
    (compute_probs fexp logits temperature num_draft_tokens max_spec_len
      init).length = init.length :=
  foldl_length_preserved _ _ _
    (fun req2 h2 o => reqFold_length _ _ _ _ _ _ _)

/-- C6: for each request and each position strictly below that request's
draft length, `compute_probs` writes at the packed row `start_idx + pos`
the logits row unchanged when the request's temperature is the greedy
sentinel, and otherwise the stable softmax of the logits row divided by the
temperature — a row that is nonnegative and sums to 1 over the full
vocabulary; grid positions at or beyond the draft length are skipped, and
rows of the buffer belonging to no request slice are left untouched. -/
theorem C6_compute_probs (fexp : ℚ → ℚ) (logits : List (List ℚ))
    (temperature : List ℚ) (num_draft_tokens : List Nat)
    (max_spec_len : Nat) (init : List (List ℚ))
    (hB : num_draft_tokens.length = temperature.length)
    (hmsl : ∀ i, i < num_draft_tokens.length →
      num_draft_tokens.getD i 0 ≤ max_spec_len)
    (htot : (num_draft_tokens.take num_draft_tokens.length).sum ≤
      logits.length)
    (hinit : init.length = logits.length)
    (hfexp : ∀ x, 0 < fexp x)
    (hvocab : ∀ row ∈ logits, row ≠ []) :
    (∀ req_idx, req_idx < num_draft_tokens.length →
      ∀ pos, pos < num_draft_tokens.getD req_idx 0 →
        (compute_probs fexp logits temperature num_draft_tokens max_spec_len
          init).getD ((num_draft_tokens.take req_idx).sum + pos) [] =
        target_prob_row fexp logits temperature num_draft_tokens req_idx
          pos) ∧
    (∀ req_idx pos,
      temperature.getD req_idx 0 = GREEDY_TEMPERATURE →
        target_prob_row fexp logits temperature num_draft_tokens req_idx pos
          = logits.getD ((num_draft_tokens.take req_idx).sum + pos) []) ∧
    (∀ req_idx, req_idx < num_draft_tokens.length →
      ∀ pos, pos < num_draft_tokens.getD req_idx 0 →
        temperature.getD req_idx 0 ≠ GREEDY_TEMPERATURE →
        (target_prob_row fexp logits temperature num_draft_tokens req_idx
          pos).sum = 1 ∧
        ∀ x ∈ target_prob_row fexp logits temperature num_draft_tokens
          req_idx pos, 0 ≤ x) ∧
    (∀ r, r < init.length →
      (∀ req_idx, req_idx < num_draft_tokens.length →
        ¬((num_draft_tokens.take req_idx).sum ≤ r ∧
          r < (num_draft_tokens.take (req_idx + 1)).sum)) →
      (compute_probs fexp logits temperature num_draft_tokens max_spec_len
        init).getD r [] = init.getD r []) := by
  have hrow_ne : ∀ req_idx, req_idx < num_draft_tokens.length →
      ∀ pos, pos < num_draft_tokens.getD req_idx 0 →
      logits.getD ((num_draft_tokens.take req_idx).sum + pos) [] ≠ [] := by
    intro req_idx hreq pos hpos
    have hlt : (num_draft_tokens.take req_idx).sum + pos < logits.length := by
      have h1 : (num_draft_tokens.take req_idx).sum + pos <
          (num_draft_tokens.take (req_idx + 1)).sum := by
        rw [sum_take_succ]
        omega
      have h2 := sum_take_mono num_draft_tokens (req_idx + 1)
        num_draft_tokens.length (by omega)
      omega
    rw [List.getD_eq_getElem?_getD, List.getElem?_eq_getElem hlt]
    exact hvocab _ (List.getElem_mem hlt)
  refine ⟨?_, ?_, ?_, ?_⟩
  · intro req_idx hreq pos hpos
    have hreqB : req_idx < temperature.length := by omega
    rw [compute_probs, range_split temperature.length req_idx hreqB,
      List.foldl_append, List.foldl_cons]
    set r := (num_draft_tokens.take req_idx).sum + pos with hrdef
    set F := fun (out : List (List ℚ)) (req2 : Nat) =>
      (List.range max_spec_len).foldl
        (fun out2 p => compute_probs_instance fexp logits temperature
          num_draft_tokens req2 p out2) out with hF
    have hlen_pre : ∀ (L : List Nat) (o : List (List ℚ)),
        (L.foldl F o).length = o.length := fun L o =>
      foldl_length_preserved F L o (fun b hb o2 => reqFold_length fexp logits
        temperature num_draft_tokens max_spec_len b o2)
    have h1 : ((List.range' (req_idx + 1)
        (temperature.length - req_idx - 1)).foldl F
        (F ((List.range' 0 req_idx).foldl F init) req_idx)).getD r [] =
        (F ((List.range' 0 req_idx).foldl F init) req_idx).getD r [] := by
      refine foldl_getD_preserved F _ _ r (fun req2 hreq2 o => ?_)
      obtain ⟨i, hi, heq⟩ := List.mem_range'.mp hreq2
      show ((List.range max_spec_len).foldl
        (fun out2 p => compute_probs_instance fexp logits temperature
          num_draft_tokens req2 p out2) o).getD r [] = o.getD r []
      refine reqFold_untouched fexp logits temperature num_draft_tokens
        max_spec_len req2 r o (fun p hp => ?_)
      have hmono := sum_take_mono num_draft_tokens (req_idx + 1) req2
        (by omega)
      have hs := sum_take_succ num_draft_tokens req_idx
      rw [hrdef]
      omega
    have h2 : (F ((List.range' 0 req_idx).foldl F init) req_idx).getD r [] =
        target_prob_row fexp logits temperature num_draft_tokens req_idx
          pos := by
      show ((List.range max_spec_len).foldl
        (fun out2 p => compute_probs_instance fexp logits temperature
          num_draft_tokens req_idx p out2)
        ((List.range' 0 req_idx).foldl F init)).getD r [] = _
      refine reqFold_write fexp logits temperature num_draft_tokens
        max_spec_len req_idx pos _ hpos (hmsl req_idx hreq) ?_
      rw [hlen_pre]
      have hs := sum_take_succ num_draft_tokens req_idx
      have hmono := sum_take_mono num_draft_tokens (req_idx + 1)
        num_draft_tokens.length (by omega)
      omega
    rw [h1]
    exact h2
  · intro req_idx pos h
    rw [target_prob_row, if_pos h]
  · intro req_idx hreq pos hpos htemp
    have hne : (logits.getD ((num_draft_tokens.take req_idx).sum + pos)
        []).map (fun x => x / temperature.getD req_idx 0) ≠ [] := by
      rw [ne_eq, List.map_eq_nil_iff]
      exact hrow_ne req_idx hreq pos hpos
    constructor
    · rw [target_prob_row, if_neg htemp]
      exact softmaxStable_sum fexp _ hfexp hne
    · rw [target_prob_row, if_neg htemp]
      exact softmaxStable_nonneg fexp _ hfexp hne
  · intro r hr hout
    rw [compute_probs]
    refine foldl_getD_preserved _ _ _ _ (fun req2 hreq2 o => ?_)
    have hreq2B : req2 < num_draft_tokens.length := by
      rw [hB]
      exact List.mem_range.mp hreq2
    refine reqFold_untouched fexp logits temperature num_draft_tokens
      max_spec_len req2 r o (fun p hp => ?_)
    intro heq
    refine hout req2 hreq2B ⟨by omega, ?_⟩
    rw [sum_take_succ]
    omega

/-- Witness for C6: one greedy request (sentinel temperature −1) with a
single draft position and logits row `[3, 4]`: packed row 0 of the output is
written with `target_prob_row`, which for the greedy sentinel is the logits
row unchanged. -/
theorem C6_compute_probs_witness :
    (0 : Nat) < 1 ∧
    (compute_probs (fun _ => 1) [[3, 4]] [-1] [1] 1 [[0, 0]]).getD 0 [] =
      target_prob_row (fun _ => 1) [[3, 4]] [-1] [1] 0 0 :=
  ⟨by decide,
    (C6_compute_probs (fun _ => 1) [[3, 4]] [-1] [1] 1 [[0, 0]]
      (by decide) (by decide) (by decide) (by decide)
      (fun x => by
        show (0 : ℚ) < 1
        decide) (by decide)).1 0 (by decide) 0 (by decide)⟩

/-- Device operations issued by one `forward` call, in program order:
the `compute_probs_kernel` grid launch, the staging-buffer host-to-device
copy, and the two verification kernel launches. -/
inductive DeviceOp where
  | computeProbsKernel
  | hostToDeviceCopy
  | greedyKernel
  | randomKernel
  deriving Repr, DecidableEq

/-- `rejection_sample` over a materialized `[batch_size, max_spec_len]` draft
matrix.  `target_probs` is the packed `[num_tokens, vocab_size]` array
produced by `compute_probs`; both kernels and the residual construction
address it through the dense `seq_idx * max_spec_len + pos` view (the layout
seam of C10).  `uniform_probs` and `q` model the `torch.rand` /
`exponential_` draws (reproducible per-request draws included), `eps` models
`torch.finfo(torch.float32).tiny`.  Returns the output matrix and the kernel
launches issued. -/
def rejection_sample (draft_token_ids : List (List Int)) (max_spec_len : Nat)
    (draft_probs : Option (List (List ℚ))) (target_probs : List (List ℚ))
    (bonus_token_ids : List Int) (temperature : List ℚ)
    (all_greedy all_random : Bool) (uniform_probs q : List (List ℚ))
    (eps : ℚ) : List (List Int) × List DeviceOp :=
  let batch_size := draft_token_ids.length
  let is_greedy := fun i => temperature.getD i 0 = GREEDY_TEMPERATURE
  let draftF := fun i pos =>
    (draft_token_ids.getD i []).getD pos PLACEHOLDER_TOKEN_ID
  let out0 := (List.range batch_size).map
    (fun _ => List.replicate (max_spec_len + 1) PLACEHOLDER_TOKEN_ID)
  let target_argmax := target_probs.map (fun row => (listArgmax row : Int))
  let out1 := if all_random then out0 else
    (List.range batch_size).map (fun i =>
      rejection_greedy_sample_row max_spec_len (draftF i)
        (fun pos => target_argmax.getD (i * max_spec_len + pos)
          PLACEHOLDER_TOKEN_ID)
        (bonus_token_ids.getD i PLACEHOLDER_TOKEN_ID) (is_greedy i))
  let ops1 := if all_random then ([] : List DeviceOp)
    else [DeviceOp.greedyKernel]
  if ¬all_random ∧ all_greedy then (out1, ops1)
  else
    let is_ngram := draft_probs.isNone
    let residual := fun i pos =>
      residual_row eps is_ngram
        (target_probs.getD (i * max_spec_len + pos) [])
        ((draft_probs.getD []).getD (i * max_spec_len + pos) [])
        (draftF i pos)
    let recovered := fun i pos =>
      (recovered_token_id (residual i) (q.getD i []) pos : Int)
    let out2 := (List.range batch_size).map (fun i =>
      if is_greedy i then out1.getD i [] else
        rejection_random_sample_row max_spec_len (draftF i) is_ngram
          (fun pos tok => ((draft_probs.getD []).getD
            (i * max_spec_len + pos) []).getD tok.toNat 0)
          (fun pos tok => (target_probs.getD
            (i * max_spec_len + pos) []).getD tok.toNat 0)
          (fun pos => (uniform_probs.getD i []).getD pos 0)
          (fun pos => recovered i pos)
          (bonus_token_ids.getD i PLACEHOLDER_TOKEN_ID) (is_greedy i))
    (out2, ops1 ++ [DeviceOp.randomKernel])

/-- `RejectionSampler.forward`, with the device operations issued in program
order.  `compute_probs` launches its kernel grid first; then
`_async_copy_to_device` performs the staging-capacity check
(`assert batch_size * max_spec_len <= self.max_num_tokens`, modelled as the
capacity error) and issues the host-to-device copy of the materialized draft
matrix; then `rejection_sample` launches the verification kernels.  On the
capacity error the whole call fails: no output matrix is produced. -/
def forward (max_num_tokens : Nat) (fexp : ℚ → ℚ)
    (draft_token_ids : List (List Int))
    (draft_probs : Option (List (List ℚ)))
    (target_logits : List (List ℚ)) (bonus_token_ids : List Int)
    (temperature : List ℚ) (all_greedy all_random : Bool)
    (uniform_probs q : List (List ℚ)) (eps : ℚ)
    (init : List (List ℚ)) :
    Except String (List (List Int)) × List DeviceOp :=
  let num_draft_tokens := draft_token_ids.map List.length
  let max_spec_len := num_draft_tokens.foldl max 0
  let batch_size := draft_token_ids.length
  let target_probs := compute_probs fexp target_logits temperature
    num_draft_tokens max_spec_len init
  if batch_size * max_spec_len ≤ max_num_tokens then
    let rs := rejection_sample (materialize draft_token_ids) max_spec_len
      draft_probs target_probs bonus_token_ids temperature all_greedy
      all_random uniform_probs q eps
    (Except.ok rs.1,
      DeviceOp.computeProbsKernel :: DeviceOp.hostToDeviceCopy :: rs.2)
  else
    (Except.error "capacity", [DeviceOp.computeProbsKernel])

/-- Counterexample to C8: a batch of one request with two draft tokens
against capacity 1 fails with the capacity error, but the trace of issued
device operations is not empty — the target-probability kernel launch of
`compute_probs` is issued before the capacity check, so the call does not
fail before any device work is issued. -/
theorem C8_counterexample :
    (forward 1 (fun _ => 1) [[5, 7]] none [[1], [1]] [42] [-1] true false
      [[0, 0]] [[1]] 1 [[0], [0]]).1 = Except.error "capacity" ∧
    (forward 1 (fun _ => 1) [[5, 7]] none [[1], [1]] [42] [-1] true false
      [[0, 0]] [[1]] 1 [[0], [0]]).2 = [DeviceOp.computeProbsKernel] ∧
    (forward 1 (fun _ => 1) [[5, 7]] none [[1], [1]] [42] [-1] true false
      [[0, 0]] [[1]] 1 [[0], [0]]).2 ≠ [] := by
  refine ⟨rfl, rfl, ?_⟩
  intro h
  simp only [forward] at h
  rw [if_neg (by decide)] at h
  cases h

/-- C8 (amended): whenever `batch_size * max_spec_len` exceeds the configured
staging capacity, the whole call fails with the capacity error — no output
matrix and no partial per-row results are exposed — and neither the
host-to-device copy nor any verification kernel is issued; however the
target-probability kernel launch of `compute_probs` has already been issued
before the capacity check. -/
theorem C8_amended_capacity (max_num_tokens : Nat) (fexp : ℚ → ℚ)
    (draft_token_ids : List (List Int))
    (draft_probs : Option (List (List ℚ)))
    (target_logits : List (List ℚ)) (bonus_token_ids : List Int)
    (temperature : List ℚ) (all_greedy all_random : Bool)
    (uniform_probs q : List (List ℚ)) (eps : ℚ) (init : List (List ℚ))
    (hcap : draft_token_ids.length *
      ((draft_token_ids.map List.length).foldl max 0) > max_num_tokens) :
    (forward max_num_tokens fexp draft_token_ids draft_probs target_logits
      bonus_token_ids temperature all_greedy all_random uniform_probs q eps
      init).1 = Except.error "capacity" ∧
    (forward max_num_tokens fexp draft_token_ids draft_probs target_logits
      bonus_token_ids temperature all_greedy all_random uniform_probs q eps
      init).2 = [DeviceOp.computeProbsKernel] := by
  have h : forward max_num_tokens fexp draft_token_ids draft_probs
      target_logits bonus_token_ids temperature all_greedy all_random
      uniform_probs q eps init =
      (Except.error "capacity", [DeviceOp.computeProbsKernel]) := by
    simp only [forward]
    rw [if_neg (by omega)]
  rw [h]
  exact ⟨rfl, rfl⟩

/-- Witness for the amended C8 at the counterexample input: batch 1, draft
length 2, capacity 1. -/
theorem C8_amended_capacity_witness :
    ((1 : Nat) * (([[5, 7]] : List (List Int)).map List.length).foldl max 0
      > 1) ∧
    (forward 1 (fun _ => 1) [[5, 7]] none [[1], [1]] [42] [-1] false true
      [[0, 0]] [[1]] 1 [[0], [0]]).1 = Except.error "capacity" :=
  ⟨by decide,
    (C8_amended_capacity 1 (fun _ => 1) [[5, 7]] none [[1], [1]] [42] [-1]
      false true [[0, 0]] [[1]] 1 [[0], [0]] (by decide)).1⟩

example :
    rejection_greedy_sample_row 2 (fun p => if p = 0 then 5 else 7)
      (fun p => if p = 0 then 5 else 9) 42 true = [5, 9, -1] := by decide

example :
    rejection_greedy_sample_row 2 (fun p => if p = 0 then 5 else 7)
      (fun p => if p = 0 then 5 else 7) 42 true = [5, 7, 42] := by decide

example :
    rejection_greedy_sample_row 2 (fun p => if p = 0 then 5 else -1)
      (fun p => if p = 0 then 5 else 9) 42 true = [5, 42, -1] := by decide

end RejectionSampling
